import Mathlib

/-!
Verification development for the Vitis workspace-builder scripts.

The Python sources under scrutiny are shallowly embedded below:

* configuration files read through `configparser` become the `Vitis.Config`
  structure with `hasSection` / `get?` / `getD` / `getbooleanFB` operations;
* `os.path.join` becomes `Vitis.pjoin`; `os.path.basename` becomes
  `Vitis.basename`;
* the iteration over numbered sections (`sorted([s for s in sections()
  if re.match(r"prefix_\d+", s)])`) becomes `Vitis.numberedSections`, with
  Python string sorting modelled by an insertion sort over the code-point
  lexicographic order `Vitis.strLe`;
* external effects (ninja subprocesses, the Vitis client, the file system)
  are supplied by environment records; each modelled operation returns its
  exit status together with the ordered trace of the external build actions
  it performed.

Every definition carries a comment naming the Python function it embeds.
-/

namespace Vitis

/-! ### Strings: Python code-point comparison and `sorted` -/

/-- Lexicographic comparison of character lists by code point; this is the
order Python uses when comparing `str` values (`a <= b`). -/
def lexLe : List Char → List Char → Bool
  | [], _ => true
  | _ :: _, [] => false
  | a :: as, b :: bs =>
    if a < b then true
    else if b < a then false
    else lexLe as bs

/-- Python string comparison `a <= b` (code-point lexicographic). -/
def strLe (a b : String) : Bool :=
  lexLe a.data b.data

theorem lexLe_total (a b : List Char) : lexLe a b = true ∨ lexLe b a = true := by
  induction a generalizing b with
  | nil => exact Or.inl rfl
  | cons x xs ih =>
    cases b with
    | nil => exact Or.inr rfl
    | cons y ys =>
      by_cases hxy : x < y
      · left; simp [lexLe, hxy]
      · by_cases hyx : y < x
        · right; simp [lexLe, hyx, hxy]
        · have hx : ¬ x < y := hxy
          rcases ih ys with h | h
          · left; simp [lexLe, hxy, hyx, h]
          · right; simp [lexLe, hxy, hyx, h]

theorem lexLe_trans {a b c : List Char} (hab : lexLe a b = true)
    (hbc : lexLe b c = true) : lexLe a c = true := by
  induction a generalizing b c with
  | nil => rfl
  | cons x xs ih =>
    cases b with
    | nil => simp [lexLe] at hab
    | cons y ys =>
      cases c with
      | nil => simp [lexLe] at hbc
      | cons z zs =>
        by_cases hxy : x < y
        · by_cases hyz : y < z
          · have : x < z := lt_trans hxy hyz
            simp [lexLe, this]
          · by_cases hzy : z < y
            · simp [lexLe, hyz, hzy] at hbc
            · have hyz' : y = z := le_antisymm (not_lt.mp hzy) (not_lt.mp hyz)
              subst hyz'
              simp [lexLe, hxy]
        · by_cases hyx : y < x
          · simp [lexLe, hxy, hyx] at hab
          · have hxy' : x = y := le_antisymm (not_lt.mp hyx) (not_lt.mp hxy)
            subst hxy'
            by_cases hxz : x < z
            · simp [lexLe, hxz]
            · by_cases hzx : z < x
              · simp [lexLe, hxz, hzx] at hbc
              · have hxz' : x = z := le_antisymm (not_lt.mp hzx) (not_lt.mp hxz)
                subst hxz'
                simp only [lexLe, if_neg (lt_irrefl x)] at hab hbc ⊢
                exact ih hab hbc

theorem lexLe_antisymm {a b : List Char} (hab : lexLe a b = true)
    (hba : lexLe b a = true) : a = b := by
  induction a generalizing b with
  | nil =>
    cases b with
    | nil => rfl
    | cons y ys => simp [lexLe] at hba
  | cons x xs ih =>
    cases b with
    | nil => simp [lexLe] at hab
    | cons y ys =>
      by_cases hxy : x < y
      · exfalso
        have : ¬ y < x := asymm hxy
        simp [lexLe, this, ne_of_gt hxy, hxy] at hba
      · by_cases hyx : y < x
        · exfalso
          simp [lexLe, hxy, hyx] at hab
        · have hxy' : x = y := le_antisymm (not_lt.mp hyx) (not_lt.mp hxy)
          subst hxy'
          simp [lexLe, lt_irrefl] at hab hba
          simp [ih hab hba]

theorem strLe_total (a b : String) : strLe a b = true ∨ strLe b a = true :=
  lexLe_total a.data b.data

theorem strLe_trans {a b c : String} (hab : strLe a b = true)
    (hbc : strLe b c = true) : strLe a c = true :=
  lexLe_trans hab hbc

theorem strLe_antisymm {a b : String} (hab : strLe a b = true)
    (hba : strLe b a = true) : a = b := by
  have h := lexLe_antisymm hab hba
  cases a
  cases b
  exact congrArg String.mk h

/-- Insert a string into a list so that an ascending run stays ascending.
Together with `pySorted` this models Python `sorted` on strings: a stable
ascending sort by code-point comparison. -/
def insertStr (a : String) : List String → List String
  | [] => [a]
  | b :: bs => if strLe a b then a :: b :: bs else b :: insertStr a bs

/-- Model of Python `sorted` on a list of strings. -/
def pySorted : List String → List String
  | [] => []
  | a :: as => insertStr a (pySorted as)

/-- `StrSorted l` says `l` is ascending for Python string comparison. -/
def StrSorted (l : List String) : Prop :=
  List.Pairwise (fun a b => strLe a b = true) l

theorem mem_insertStr {x a : String} {l : List String} :
    x ∈ insertStr a l ↔ x = a ∨ x ∈ l := by
  induction l with
  | nil => simp [insertStr]
  | cons b bs ih =>
    by_cases h : strLe a b = true
    · simp [insertStr, h]
    · simp [insertStr, h, ih]
      tauto

theorem mem_pySorted {x : String} {l : List String} :
    x ∈ pySorted l ↔ x ∈ l := by
  induction l with
  | nil => simp [pySorted]
  | cons a as ih => simp [pySorted, mem_insertStr, ih]

theorem strSorted_insertStr {a : String} {l : List String}
    (h : StrSorted l) : StrSorted (insertStr a l) := by
  induction l with
  | nil => simp [insertStr, StrSorted]
  | cons b bs ih =>
    rcases h with - | ⟨hb, hbs⟩
    unfold StrSorted insertStr
    by_cases hab : strLe a b = true
    · rw [if_pos hab]
      refine List.Pairwise.cons ?_ (List.Pairwise.cons hb hbs)
      intro y hy
      rcases List.mem_cons.mp hy with rfl | hy
      · exact hab
      · exact strLe_trans hab (hb y hy)
    · rw [if_neg hab]
      have hba : strLe b a = true := (strLe_total a b).resolve_left hab
      refine List.Pairwise.cons ?_ (ih hbs)
      intro y hy
      rcases mem_insertStr.mp hy with rfl | hy
      · exact hba
      · exact hb y hy

theorem strSorted_pySorted (l : List String) : StrSorted (pySorted l) := by
  induction l with
  | nil => exact List.Pairwise.nil
  | cons a as ih => exact strSorted_insertStr ih

/-- Position of the first occurrence of `a` (length of `l` if absent);
our stand-in for "processed before": smaller position means earlier. -/
def firstPos (a : String) : List String → Nat
  | [] => 0
  | b :: bs => if b = a then 0 else firstPos a bs + 1

theorem firstPos_lt_of_strSorted {l : List String} {a b : String}
    (hs : StrSorted l) (ha : a ∈ l) (hb : b ∈ l)
    (hab : strLe a b = true) (hne : a ≠ b) :
    firstPos a l < firstPos b l := by
  induction l with
  | nil => cases ha
  | cons x xs ih =>
    rcases hs with - | ⟨hx, hxs⟩
    by_cases hxa : x = a
    · subst hxa
      have hxb : x ≠ b := hne
      simp only [firstPos, if_pos rfl, if_neg hxb]
      exact Nat.succ_pos _
    · by_cases hxb : x = b
      · subst hxb
        have hamem : a ∈ xs := by
          rcases List.mem_cons.mp ha with h | h
          · exact absurd h.symm hxa
          · exact h
        have hxa' : strLe x a = true := hx a hamem
        exact absurd (strLe_antisymm hab hxa') hne
      · have hamem : a ∈ xs := by
          rcases List.mem_cons.mp ha with h | h
          · exact absurd h.symm hxa
          · exact h
        have hbmem : b ∈ xs := by
          rcases List.mem_cons.mp hb with h | h
          · exact absurd h.symm hxb
          · exact h
        simp only [firstPos, if_neg hxa, if_neg hxb]
        exact Nat.succ_lt_succ (ih hxs hamem hbmem)

/-! ### String helpers (Python `str` methods on the character list)

The built-in `String.splitOn` / `trim` / `toLower` are byte-position based
and do not reduce inside the kernel, so the Python methods are modelled
directly on `List Char`. -/

/-- Python `s.split(sep)` for a one-character separator. -/
def splitOnChar (sep : Char) : List Char → List (List Char)
  | [] => [[]]
  | c :: rest =>
    let r := splitOnChar sep rest
    if c = sep then [] :: r
    else
      match r with
      | [] => [[c]]
      | h :: t => (c :: h) :: t

/-- Python `s.strip()`: drop whitespace from both ends. -/
def strip (s : String) : String :=
  ⟨((s.data.dropWhile Char.isWhitespace).reverse.dropWhile Char.isWhitespace).reverse⟩

/-- Python `s.lower()`. -/
def pyLower (s : String) : String := ⟨s.data.map Char.toLower⟩

/-- Python `s.replace('\n', ',')` (one-character replacement). -/
def replaceChar (old new : Char) (s : String) : String :=
  ⟨s.data.map (fun c => if c = old then new else c)⟩

/-- Python `s.endswith(suffixes)` for the source-extension checks. -/
def endsWithAny (suffixes : List String) (s : String) : Bool :=
  suffixes.any (fun suf => suf.data.isSuffixOf s.data)

/-! ### Configuration files (`configparser.ConfigParser`)

A parser holds a list of sections in file order, each a list of
`(option, value)` pairs.  `configparser` refuses duplicate sections and
options, so the lists are name-distinct in every state the scripts see;
where a proof needs that fact it takes it as a hypothesis. -/

/-- A parsed `.conf` file: sections in file order. -/
structure Config where
  sections : List (String × List (String × String))
deriving DecidableEq

/-- The empty parser, as returned by `configparser.ConfigParser()` before
(or without) a successful `read`. -/
def Config.empty : Config := ⟨[]⟩

/-- `ConfigParser.sections()`: the section names in file order. -/
def Config.sectionNames (c : Config) : List String :=
  c.sections.map (fun p => p.1)

/-- `ConfigParser.has_section(s)`. -/
def Config.hasSection (c : Config) (s : String) : Bool :=
  c.sections.any (fun p => p.1 = s)

/-- `ConfigParser.get(s, o)` where `none` models the `NoSectionError` /
`NoOptionError` exception. -/
def Config.get? (c : Config) (s o : String) : Option String :=
  match c.sections.find? (fun p => p.1 = s) with
  | none => none
  | some sec => (sec.2.find? (fun p => p.1 = o)).map (fun p => p.2)

/-- `ConfigParser.has_option(s, o)`. -/
def Config.hasOption (c : Config) (s o : String) : Bool :=
  (c.get? s o).isSome

/-- `ConfigParser.get(s, o, fallback=fb)`. -/
def Config.getD (c : Config) (s o fb : String) : String :=
  (c.get? s o).getD fb

/-- `configparser`'s boolean-value table (`BOOLEAN_STATES`); `none` models
the `ValueError` raised on any other string. -/
def parseConfigBool (v : String) : Option Bool :=
  let t := pyLower v
  if t = "1" ∨ t = "yes" ∨ t = "true" ∨ t = "on" then some true
  else if t = "0" ∨ t = "no" ∨ t = "false" ∨ t = "off" then some false
  else none

/-- `ConfigParser.getboolean(s, o, fallback=fb)`: the fallback applies when
the option is missing; a present but unparsable value raises (`none`). -/
def Config.getbooleanFB (c : Config) (s o : String) (fb : Bool) : Option Bool :=
  match c.get? s o with
  | none => some fb
  | some v => parseConfigBool v

/-! ### Paths (`os.path` on the POSIX branch) -/

/-- `os.path.join(a, b)` (POSIX). -/
def pjoin (a b : String) : String := a ++ "/" ++ b

/-- `vitis_paths.TOP_PATH` (the absolute prefix is irrelevant to every
claim, so the model keeps the distinguishing suffix). -/
def TOP_PATH : String := "Top"

/-- `vitis_paths.PROJECTS_PATH`. -/
def PROJECTS_PATH : String := "Projects"

/-- `os.path.basename` (POSIX): the part after the final slash. -/
def basename (p : String) : String :=
  ⟨(splitOnChar '/' p.data).getLastD []⟩

/-! ### `vitis_paths.read_config`

`configparser.ConfigParser.read` silently skips files that cannot be
opened, so a missing `.conf` file yields a parser with no sections. -/

/-- The `.conf` files the file system holds: `none` means the file does not
exist (or cannot be read). -/
def ConfFS := String → Option Config

/-- `vitis_paths.read_config(config_folder, filename)`. -/
def read_config (fs : ConfFS) (configFolder filename : String) : Config :=
  match fs (pjoin configFolder (filename ++ ".conf")) with
  | none => Config.empty
  | some c => c

/-! ### Numbered sections

`sorted([s for s in config.sections() if re.match(r"<pre>\d+", s)])` —
`re.match` anchors at the start only, so the filter keeps exactly the
section names that start with `pre` followed by at least one digit. -/

/-- Does `re.match(r"<pre>\d+", s)` succeed?  True exactly when `s` starts
with `pre` followed by at least one digit. -/
def matchesNumbered (pre s : String) : Bool :=
  pre.data.isPrefixOf s.data && ((s.data.drop pre.data.length).headD ' ').isDigit

/-- The numbered sections of a config, in the order the build/update/create
loops visit them: filtered by `re.match`, then Python-`sorted`. -/
def numberedSections (pre : String) (c : Config) : List String :=
  pySorted ((c.sectionNames).filter (matchesNumbered pre))

/-- The same filter without the sort: the iteration order of
`VitisPlatform.__init__` over `domain_N` sections (file order). -/
def numberedSectionsUnsorted (pre : String) (c : Config) : List String :=
  (c.sectionNames).filter (matchesNumbered pre)

/-! ### External actions and the build environment

Every modelled operation returns its result together with the ordered list
of external actions it performed.  Vendor-client calls and subprocesses are
resolved by an `Env`; the scripts only branch on the results recorded
there, so the control flow below mirrors the Python line by line. -/

/-- Result of a call into external code that either returns an integer
status or raises. -/
inductive VOutcome where
  | ok (status : Int)
  | raises
deriving DecidableEq

/-- An externally visible action of the scripts, in occurrence order. -/
inductive Act where
  | ninjaClean (dir : String) (code : Int)
  | ninjaBuild (dir : String)
  | clientGet (name : String)
  | clientBuild (name : String)
  | platformCreate (name : String)
  | appCreate (name : String)
  | appConfigure (name : String)
  | domainConfigure (name : String)
  | appUpdate (name : String)
  | activateRun (name : String)
deriving DecidableEq

/-- Is the action one of the two vendor-client calls? -/
def Act.isClient : Act → Bool
  | .clientGet _ => true
  | .clientBuild _ => true
  | _ => false

/-- The directories in which a `ninja` build (not a clean) was run. -/
def ninjaBuildDirs (tr : List Act) : List String :=
  tr.filterMap (fun a =>
    match a with
    | .ninjaBuild d => some d
    | _ => none)

/-- The components on which `component.build()` was invoked. -/
def clientBuilds (tr : List Act) : List String :=
  tr.filterMap (fun a =>
    match a with
    | .clientBuild n => some n
    | _ => none)

/-- The environment resolving every external call the scripts make. -/
structure Env where
  /-- `os.path.exists`. -/
  pathExists : String → Bool
  /-- `find_ninja_executable`: `some path`, or `none` for `RuntimeError`. -/
  ninja : Option String
  /-- Exit code of running plain `ninja` in a directory. -/
  runBuild : String → Int
  /-- Exit code of running `ninja clean` in a directory. -/
  runClean : String → Int
  /-- `read_config(folder, filename)`: the parsed `.conf` files. -/
  readConf : String → String → Config
  /-- Does `client.get_component(name)` return a component (not `None`)? -/
  getComponent : String → Bool
  /-- Result of `component.build()` on a vendor component. -/
  componentBuild : String → VOutcome
  /-- Result of `platform.create()` (`VitisPlatform.create`). -/
  platformCreateOut : String → VOutcome
  /-- Result of `application.create()` (`VitisApplication.create`). -/
  appCreateOut : String → VOutcome
  /-- Result of `application.configure()` (`VitisApplication.configure`). -/
  appConfigureOut : String → VOutcome
  /-- Does the `VitisApplication` constructor succeed for this section's
  application (its config and launch-config reads may raise)? -/
  appCtorOk : String → Bool
  /-- Result of `domain_wrapper.configure()` (`VitisPlatformDomain`). -/
  domainConfigureOut : String → VOutcome
  /-- Does `ApplicationUpdater.update()` return without raising? -/
  appUpdateOk : String → Bool
  /-- Return value of `activate_project`. -/
  activateOk : String → Bool

/-! ### `vitis_build._run_ninja_in_directory` -/

/-- `_run_ninja_in_directory(ninja_path, build_dir, clean, name)`:
missing `build.ninja` returns 1; a failing `ninja clean` is only warned
about; the build's exit code is returned. -/
def runNinjaInDirectory (env : Env) (buildDir : String) (clean : Bool) :
    Int × List Act :=
  if env.pathExists (pjoin buildDir "build.ninja") = false then (1, [])
  else
    let cleanActs : List Act :=
      if clean then [Act.ninjaClean buildDir (env.runClean buildDir)] else []
    (env.runBuild buildDir, cleanActs ++ [Act.ninjaBuild buildDir])

/-! ### `vitis_build.build_project_all_ninja` -/

/-- The BSP build directory for one domain (`bsp_build_dir` in the code). -/
def bspBuildDir (platformDir processor domainName : String) : String :=
  pjoin (pjoin (pjoin (pjoin (pjoin (pjoin platformDir processor)
    domainName) "bsp") "libsrc") "build_configs") "gen_bsp"

/-- The domain list `build_project_all_ninja` assembles from
`platform.conf`: the `[domain]` section first (its unguarded `get` calls
may raise, modelled by `none`), then the sorted `domain_N` sections whose
`NAME` and `PROCESSOR_INSTANCE` are both present. -/
def collectDomains (pc : Config) : Option (List (String × String)) :=
  let extra :=
    (numberedSections "domain_" pc).filterMap (fun s =>
      match pc.get? s "NAME", pc.get? s "PROCESSOR_INSTANCE" with
      | some n, some p => some (n, p)
      | _, _ => none)
  if pc.hasSection "domain" then
    match pc.get? "domain" "NAME", pc.get? "domain" "PROCESSOR_INSTANCE" with
    | some n, some p => some ((n, p) :: extra)
    | _, _ => none
  else
    some extra

/-- The application-name list `build_project_all_ninja` assembles from
`vitis.conf` (all accesses are guarded, so no exception is possible). -/
def collectAppNames (vc : Config) : List String :=
  let primary :=
    if vc.hasSection "application" ∧ vc.hasOption "application" "NAME" then
      match vc.get? "application" "NAME" with
      | some n => [n]
      | none => []
    else []
  let extra :=
    (numberedSections "application_" vc).filterMap (fun s => vc.get? s "NAME")
  primary ++ extra

/-- The Step-1 loop: build the BSP of each domain in order, stopping at the
first missing directory / missing `build.ninja` / nonzero exit code.
`none` in the first component means the loop completed. -/
def buildBsps (env : Env) (platformDir : String) (clean : Bool) :
    List (String × String) → Option Int × List Act
  | [] => (none, [])
  | (domainName, processor) :: rest =>
    let dir := bspBuildDir platformDir processor domainName
    if env.pathExists dir = false then (some 1, [])
    else if env.pathExists (pjoin dir "build.ninja") = false then (some 1, [])
    else
      let r := runNinjaInDirectory env dir clean
      if r.1 ≠ 0 then (some r.1, r.2)
      else
        let rest' := buildBsps env platformDir clean rest
        (rest'.1, r.2 ++ rest'.2)

/-- The Step-3 loop: build each application in order, stopping at the first
missing build directory or nonzero exit code. -/
def buildApps (env : Env) (clean : Bool) : List String → Option Int × List Act
  | [] => (none, [])
  | appName :: rest =>
    let dir := pjoin (pjoin PROJECTS_PATH appName) "build"
    if env.pathExists dir = false then (some 1, [])
    else
      let r := runNinjaInDirectory env dir clean
      if r.1 ≠ 0 then (some r.1, r.2)
      else
        let rest' := buildApps env clean rest
        (rest'.1, r.2 ++ rest'.2)

/-- The Step-2 conditional: build the FSBL when `BOOT_COMPONENTS` is true
(directory missing returns 1; a nonzero build exit code is returned). -/
def buildFsbl (env : Env) (platformDir : String) (clean hasBoot : Bool) :
    Option Int × List Act :=
  if hasBoot then
    let fsblDir := pjoin (pjoin platformDir "zynq_fsbl") "build"
    if env.pathExists fsblDir = false then (some 1, [])
    else
      let r := runNinjaInDirectory env fsblDir clean
      if r.1 ≠ 0 then (some r.1, r.2) else (none, r.2)
  else (none, [])

/-- Result of a top-level command: a returned exit code, or an uncaught
exception escaping the function. -/
inductive BRes where
  | exit (code : Int)
  | exc
deriving DecidableEq

/-- `build_project_all_ninja(project_name, clean, use_system_ninja)`.
The `use_system_ninja` choice only selects which ninja binary
`find_ninja_executable` looks for; both failure modes are `env.ninja =
none`, so the flag is dropped from the model. -/
def build_project_all_ninja (env : Env) (projectName : String) (clean : Bool) :
    BRes × List Act :=
  match env.ninja with
  | none => (BRes.exit 1, [])
  | some _ =>
    let configFolder := pjoin TOP_PATH projectName
    if env.pathExists configFolder = false then (BRes.exit 1, [])
    else
      let platformDir := pjoin PROJECTS_PATH (projectName ++ "_platform")
      if env.pathExists platformDir = false then (BRes.exit 1, [])
      else
        let pc := env.readConf configFolder "platform"
        match collectDomains pc with
        | none => (BRes.exc, [])
        | some domains =>
          if domains.isEmpty then (BRes.exit 1, [])
          else
            match buildBsps env platformDir clean domains with
            | (some code, bspActs) => (BRes.exit code, bspActs)
            | (none, bspActs) =>
              match pc.getbooleanFB "boot" "BOOT_COMPONENTS" true with
              | none => (BRes.exc, bspActs)
              | some hasBoot =>
                match buildFsbl env platformDir clean hasBoot with
                | (some code, fsblActs) => (BRes.exit code, bspActs ++ fsblActs)
                | (none, fsblActs) =>
                  let vc := env.readConf configFolder "vitis"
                  let appNames := collectAppNames vc
                  if appNames.isEmpty then (BRes.exit 0, bspActs ++ fsblActs)
                  else
                    match buildApps env clean appNames with
                    | (some code, appActs) =>
                      (BRes.exit code, bspActs ++ fsblActs ++ appActs)
                    | (none, appActs) =>
                      (BRes.exit 0, bspActs ++ fsblActs ++ appActs)

/-- The full intended build schedule of `build_project_all_ninja` (the
directories of Step 1, Step 2 and Step 3 in order), used to state the
ordering claims. -/
def ninjaSchedule (env : Env) (projectName : String) : List String :=
  let configFolder := pjoin TOP_PATH projectName
  let platformDir := pjoin PROJECTS_PATH (projectName ++ "_platform")
  let pc := env.readConf configFolder "platform"
  let vc := env.readConf configFolder "vitis"
  let domains := (collectDomains pc).getD []
  let bspDirs := domains.map (fun d => bspBuildDir platformDir d.2 d.1)
  let fsblDirs :=
    if pc.getbooleanFB "boot" "BOOT_COMPONENTS" true = some true then
      [pjoin (pjoin platformDir "zynq_fsbl") "build"]
    else []
  let appDirs := (collectAppNames vc).map
    (fun n => pjoin (pjoin PROJECTS_PATH n) "build")
  bspDirs ++ fsblDirs ++ appDirs

/-! ### Stage lemmas for the ninja pipeline -/

theorem runNinja_fst (env : Env) (d : String) (c : Bool)
    (h : env.pathExists (pjoin d "build.ninja") = true) :
    (runNinjaInDirectory env d c).1 = env.runBuild d := by
  simp [runNinjaInDirectory, h]

theorem runNinja_builds (env : Env) (d : String) (c : Bool)
    (h : env.pathExists (pjoin d "build.ninja") = true) :
    ninjaBuildDirs (runNinjaInDirectory env d c).2 = [d] := by
  cases c <;> simp [runNinjaInDirectory, h, ninjaBuildDirs]

/-- The invariant every sequential build stage of
`build_project_all_ninja` maintains, relative to its intended directory
schedule `sched`: the executed builds form a prefix of the schedule, every
executed build except possibly the last exited 0, a `none` status means
the stage ran its whole schedule successfully, a `some` status is nonzero,
and any executed build with a nonzero exit code is the stage's last build
and supplies the returned status. -/
structure StageSpec (env : Env) (sched : List String)
    (res : Option Int × List Act) : Prop where
  pre : ninjaBuildDirs res.2 <+: sched
  dropLastZero : ∀ d ∈ (ninjaBuildDirs res.2).dropLast, env.runBuild d = 0
  complete : res.1 = none →
    ninjaBuildDirs res.2 = sched ∧ ∀ d ∈ ninjaBuildDirs res.2, env.runBuild d = 0
  failNonzero : ∀ c, res.1 = some c → c ≠ 0
  failLast : ∀ d ∈ ninjaBuildDirs res.2, env.runBuild d ≠ 0 →
    (ninjaBuildDirs res.2).getLast? = some d ∧ res.1 = some (env.runBuild d)

/-- A stage that stops before running any build. -/
theorem stageSpec_stop (env : Env) (sched : List String) (c : Int)
    (hc : c ≠ 0) : StageSpec env sched (some c, []) := by
  refine ⟨?_, ?_, ?_, ?_, ?_⟩
  · simp [ninjaBuildDirs]
  · simp [ninjaBuildDirs]
  · intro h; cases h
  · intro c' h
    cases h
    exact hc
  · simp [ninjaBuildDirs]

/-- A stage that fails on its first item after one executed build. -/
theorem stageSpec_failFirst (env : Env) (d : String) (sched : List String)
    (acts : List Act) (hacts : ninjaBuildDirs acts = [d])
    (hne : env.runBuild d ≠ 0) :
    StageSpec env (d :: sched) (some (env.runBuild d), acts) := by
  refine ⟨?_, ?_, ?_, ?_, ?_⟩
  · rw [hacts]
    exact List.cons_prefix_cons.mpr ⟨rfl, List.nil_prefix⟩
  · rw [hacts]
    simp
  · intro h; cases h
  · intro c hc
    cases hc
    exact hne
  · rw [hacts]
    intro x hx _
    rcases List.mem_singleton.mp hx with rfl
    simp

/-- One successful build followed by a stage satisfying the spec. -/
theorem stageSpec_cons (env : Env) (d : String) (sched : List String)
    (res : Option Int × List Act) (acts : List Act)
    (hacts : ninjaBuildDirs acts = [d])
    (hzero : env.runBuild d = 0)
    (hres : StageSpec env sched res) :
    StageSpec env (d :: sched) (res.1, acts ++ res.2) := by
  have hbuilds : ninjaBuildDirs (acts ++ res.2) = d :: ninjaBuildDirs res.2 := by
    unfold ninjaBuildDirs at hacts ⊢
    rw [List.filterMap_append, hacts]
    rfl
  refine ⟨?_, ?_, ?_, ?_, ?_⟩
  · rw [hbuilds]
    exact List.cons_prefix_cons.mpr ⟨rfl, hres.pre⟩
  · rw [hbuilds]
    intro x hx
    rcases hb : ninjaBuildDirs res.2 with - | ⟨b, bs⟩
    · rw [hb] at hx
      simp at hx
    · rw [hb] at hx
      rw [List.dropLast_cons₂] at hx
      rcases List.mem_cons.mp hx with rfl | hx
      · exact hzero
      · have := hres.dropLastZero x
        rw [hb] at this
        exact this hx
  · intro h
    rcases hres.complete h with ⟨h1, h2⟩
    refine ⟨by rw [hbuilds, h1], ?_⟩
    rw [hbuilds]
    intro x hx
    rcases List.mem_cons.mp hx with rfl | hx
    · exact hzero
    · exact h2 x hx
  · exact hres.failNonzero
  · rw [hbuilds]
    intro x hx hne
    rcases List.mem_cons.mp hx with rfl | hx
    · exact absurd hzero hne
    · rcases hres.failLast x hx hne with ⟨h1, h2⟩
      refine ⟨?_, h2⟩
      cases hcase : ninjaBuildDirs res.2 with
      | nil =>
        rw [hcase] at hx
        cases hx
      | cons b bs =>
        rw [hcase] at h1
        rw [List.getLast?_cons_cons]
        exact h1

theorem buildBsps_stage (env : Env) (pd : String) (clean : Bool)
    (items : List (String × String)) :
    StageSpec env (items.map (fun d => bspBuildDir pd d.2 d.1))
      (buildBsps env pd clean items) := by
  induction items with
  | nil =>
    refine ⟨?_, ?_, ?_, ?_, ?_⟩ <;> simp [buildBsps, ninjaBuildDirs]
  | cons it rest ih =>
    rcases it with ⟨dn, pr⟩
    rw [List.map_cons]
    show StageSpec env (bspBuildDir pd pr dn :: _) _
    unfold buildBsps
    by_cases h1 : env.pathExists (bspBuildDir pd pr dn) = false
    · rw [if_pos h1]
      exact stageSpec_stop env _ 1 one_ne_zero
    · rw [if_neg h1]
      by_cases h2 :
          env.pathExists (pjoin (bspBuildDir pd pr dn) "build.ninja") = false
      · rw [if_pos h2]
        exact stageSpec_stop env _ 1 one_ne_zero
      · rw [if_neg h2]
        rw [Bool.not_eq_false] at h2
        have hb := runNinja_builds env (bspBuildDir pd pr dn) clean h2
        have hf := runNinja_fst env (bspBuildDir pd pr dn) clean h2
        by_cases h3 :
            (runNinjaInDirectory env (bspBuildDir pd pr dn) clean).1 ≠ 0
        · rw [if_pos h3]
          rw [hf] at h3 ⊢
          exact stageSpec_failFirst env _ _ _ hb h3
        · rw [if_neg h3]
          push_neg at h3
          have hzero : env.runBuild (bspBuildDir pd pr dn) = 0 := by
            rw [← hf]
            exact h3
          exact stageSpec_cons env (bspBuildDir pd pr dn) _ _ _ hb hzero ih

theorem buildApps_stage (env : Env) (clean : Bool) (names : List String) :
    StageSpec env (names.map (fun n => pjoin (pjoin PROJECTS_PATH n) "build"))
      (buildApps env clean names) := by
  induction names with
  | nil =>
    refine ⟨?_, ?_, ?_, ?_, ?_⟩ <;> simp [buildApps, ninjaBuildDirs]
  | cons n rest ih =>
    rw [List.map_cons]
    show StageSpec env (pjoin (pjoin PROJECTS_PATH n) "build" :: _) _
    unfold buildApps
    by_cases h1 : env.pathExists (pjoin (pjoin PROJECTS_PATH n) "build") = false
    · rw [if_pos h1]
      exact stageSpec_stop env _ 1 one_ne_zero
    · rw [if_neg h1]
      by_cases h2 : env.pathExists
          (pjoin (pjoin (pjoin PROJECTS_PATH n) "build") "build.ninja") = false
      · have hstop : runNinjaInDirectory env
            (pjoin (pjoin PROJECTS_PATH n) "build") clean = (1, []) := by
          simp [runNinjaInDirectory, h2]
        rw [hstop]
        by_cases hone : (1 : Int) ≠ 0
        · rw [if_pos hone]
          exact stageSpec_stop env _ 1 one_ne_zero
        · exact absurd one_ne_zero hone
      · rw [Bool.not_eq_false] at h2
        have hb := runNinja_builds env (pjoin (pjoin PROJECTS_PATH n) "build")
          clean h2
        have hf := runNinja_fst env (pjoin (pjoin PROJECTS_PATH n) "build")
          clean h2
        by_cases h3 : (runNinjaInDirectory env
            (pjoin (pjoin PROJECTS_PATH n) "build") clean).1 ≠ 0
        · rw [if_pos h3]
          rw [hf] at h3 ⊢
          exact stageSpec_failFirst env _ _ _ hb h3
        · rw [if_neg h3]
          push_neg at h3
          have hzero : env.runBuild (pjoin (pjoin PROJECTS_PATH n) "build") = 0 := by
            rw [← hf]
            exact h3
          exact stageSpec_cons env _ _ _ _ hb hzero ih

theorem buildFsbl_stage (env : Env) (pd : String) (clean hasBoot : Bool) :
    StageSpec env
      (if hasBoot then [pjoin (pjoin pd "zynq_fsbl") "build"] else [])
      (buildFsbl env pd clean hasBoot) := by
  unfold buildFsbl
  cases hasBoot with
  | false =>
    refine ⟨?_, ?_, ?_, ?_, ?_⟩ <;> simp [ninjaBuildDirs]
  | true =>
    rw [if_pos rfl, if_pos rfl]
    by_cases h1 : env.pathExists (pjoin (pjoin pd "zynq_fsbl") "build") = false
    · rw [if_pos h1]
      exact stageSpec_stop env _ 1 one_ne_zero
    · rw [if_neg h1]
      by_cases h2 : env.pathExists
          (pjoin (pjoin (pjoin pd "zynq_fsbl") "build") "build.ninja") = false
      · have hstop : runNinjaInDirectory env
            (pjoin (pjoin pd "zynq_fsbl") "build") clean = (1, []) := by
          simp [runNinjaInDirectory, h2]
        rw [hstop]
        by_cases hone : (1 : Int) ≠ 0
        · rw [if_pos hone]
          exact stageSpec_stop env _ 1 one_ne_zero
        · exact absurd one_ne_zero hone
      · rw [Bool.not_eq_false] at h2
        have hb := runNinja_builds env (pjoin (pjoin pd "zynq_fsbl") "build")
          clean h2
        have hf := runNinja_fst env (pjoin (pjoin pd "zynq_fsbl") "build")
          clean h2
        by_cases h3 : (runNinjaInDirectory env
            (pjoin (pjoin pd "zynq_fsbl") "build") clean).1 ≠ 0
        · rw [if_pos h3]
          rw [hf] at h3 ⊢
          exact stageSpec_failFirst env _ _ _ hb h3
        · rw [if_neg h3]
          push_neg at h3
          have hzero : env.runBuild (pjoin (pjoin pd "zynq_fsbl") "build") = 0 := by
            rw [← hf]
            exact h3
          have hnil : StageSpec env ([] : List String)
              ((none : Option Int), ([] : List Act)) := by
            refine ⟨?_, ?_, ?_, ?_, ?_⟩ <;> simp [ninjaBuildDirs]
          have := stageSpec_cons env (pjoin (pjoin pd "zynq_fsbl") "build")
            [] (none, []) _ hb hzero hnil
          simpa using this

/-- Sequential composition of two stage results: the second stage runs only
when the first finished with status `none`. -/
def seqStage (r1 r2 : Option Int × List Act) : Option Int × List Act :=
  match r1.1 with
  | some c => (some c, r1.2)
  | none => (r2.1, r1.2 ++ r2.2)

theorem stageSpec_seq {env : Env} {s1 s2 : List String}
    {r1 r2 : Option Int × List Act}
    (h1 : StageSpec env s1 r1) (h2 : StageSpec env s2 r2) :
    StageSpec env (s1 ++ s2) (seqStage r1 r2) := by
  cases hr1 : r1.1 with
  | some c =>
    have hseq : seqStage r1 r2 = (some c, r1.2) := by
      unfold seqStage
      rw [hr1]
    rw [hseq]
    refine ⟨?_, h1.dropLastZero, ?_, ?_, ?_⟩
    · exact h1.pre.trans (List.prefix_append s1 s2)
    · intro h; cases h
    · intro c' hc'
      cases hc'
      exact h1.failNonzero c hr1
    · intro d hd hne
      rcases h1.failLast d hd hne with ⟨ha, hb⟩
      rw [hr1] at hb
      cases hb
      exact ⟨ha, rfl⟩
  | none =>
    have hseq : seqStage r1 r2 = (r2.1, r1.2 ++ r2.2) := by
      unfold seqStage
      rw [hr1]
    rw [hseq]
    rcases h1.complete hr1 with ⟨hfull, hzero⟩
    rw [hfull] at hzero
    have hbuilds : ninjaBuildDirs (r1.2 ++ r2.2) =
        s1 ++ ninjaBuildDirs r2.2 := by
      unfold ninjaBuildDirs at hfull ⊢
      rw [List.filterMap_append, hfull]
    refine ⟨?_, ?_, ?_, h2.failNonzero, ?_⟩
    · rw [hbuilds]
      rcases h2.pre with ⟨t, ht⟩
      exact ⟨t, by rw [List.append_assoc, ht]⟩
    · rw [hbuilds]
      intro x hx
      rcases hb2 : ninjaBuildDirs r2.2 with - | ⟨b, bs⟩
      · rw [hb2, List.append_nil] at hx
        exact hzero x (List.mem_of_mem_dropLast hx)
      · rw [hb2] at hx
        rw [List.dropLast_append_of_ne_nil _ (by simp)] at hx
        rcases List.mem_append.mp hx with hx | hx
        · exact hzero x hx
        · have := h2.dropLastZero x
          rw [hb2] at this
          exact this hx
    · intro h
      rcases h2.complete h with ⟨hfull2, hzero2⟩
      rw [hbuilds, hfull2]
      refine ⟨rfl, ?_⟩
      intro x hx
      rcases List.mem_append.mp hx with hx | hx
      · exact hzero x hx
      · rw [← hfull2] at hx
        exact hzero2 x hx
    · rw [hbuilds]
      intro x hx hne
      rcases List.mem_append.mp hx with hx1 | hx2
      · exact absurd (hzero x hx1) hne
      · rcases h2.failLast x hx2 hne with ⟨ha, hb⟩
        refine ⟨?_, hb⟩
        rw [List.getLast?_append_of_ne_nil]
        · exact ha
        · intro h
          rw [h] at hx2
          cases hx2

/-- The executed-builds facts `build_project_all_ninja` guarantees,
relative to the full schedule `ninjaSchedule`. -/
structure GlobalFacts (env : Env) (project : String)
    (res : BRes × List Act) : Prop where
  emptyDomains :
    collectDomains (env.readConf (pjoin TOP_PATH project) "platform") = some [] →
      res = (BRes.exit 1, [])
  pre : ninjaBuildDirs res.2 <+: ninjaSchedule env project
  dropLastZero : ∀ d ∈ (ninjaBuildDirs res.2).dropLast, env.runBuild d = 0
  success : res.1 = BRes.exit 0 →
    ninjaBuildDirs res.2 = ninjaSchedule env project
  failLast : ∀ d ∈ ninjaBuildDirs res.2, env.runBuild d ≠ 0 →
    (ninjaBuildDirs res.2).getLast? = some d ∧
      res.1 = BRes.exit (env.runBuild d)

/-- Bridge from a stage spec over the executed schedule portion to the
last four global facts. -/
theorem globalTail_of_stage (env : Env) (project : String)
    (s1 s2 : List String) (st : Option Int × List Act) (res : BRes × List Act)
    (hspec : StageSpec env s1 st)
    (hsched : ninjaSchedule env project = s1 ++ s2)
    (hacts : res.2 = st.2)
    (hres : (res.1 = BRes.exc ∧ st.1 = none)
        ∨ (∃ c, st.1 = some c ∧ res.1 = BRes.exit c)
        ∨ (st.1 = none ∧ s2 = [] ∧ res.1 = BRes.exit 0)) :
    (ninjaBuildDirs res.2 <+: ninjaSchedule env project) ∧
    (∀ d ∈ (ninjaBuildDirs res.2).dropLast, env.runBuild d = 0) ∧
    (res.1 = BRes.exit 0 → ninjaBuildDirs res.2 = ninjaSchedule env project) ∧
    (∀ d ∈ ninjaBuildDirs res.2, env.runBuild d ≠ 0 →
      (ninjaBuildDirs res.2).getLast? = some d ∧
        res.1 = BRes.exit (env.runBuild d)) := by
  rw [hacts, hsched]
  refine ⟨hspec.pre.trans (List.prefix_append s1 s2), hspec.dropLastZero, ?_, ?_⟩
  · intro h0
    rcases hres with ⟨he, _⟩ | ⟨c, hc, he⟩ | ⟨hn, hs2, _⟩
    · rw [he] at h0
      cases h0
    · rw [he] at h0
      cases h0
      exact absurd rfl (hspec.failNonzero 0 hc)
    · rcases hspec.complete hn with ⟨hfull, _⟩
      rw [hfull, hs2, List.append_nil]
  · intro d hd hne
    rcases hres with ⟨he, hn⟩ | ⟨c, hc, he⟩ | ⟨hn, _, _⟩
    · rcases hspec.complete hn with ⟨_, hzero⟩
      exact absurd (hzero d hd) hne
    · rcases hspec.failLast d hd hne with ⟨ha, hb⟩
      rw [hc] at hb
      cases hb
      exact ⟨ha, by rw [he]⟩
    · rcases hspec.complete hn with ⟨_, hzero⟩
      exact absurd (hzero d hd) hne

/-- Global facts for the early-return leaves that run no build. -/
theorem globalFacts_exit1_nil (env : Env) (project : String) :
    GlobalFacts env project (BRes.exit 1, []) := by
  refine ⟨fun _ => rfl, ?_, ?_, ?_, ?_⟩
  · show ninjaBuildDirs [] <+: _
    simp [ninjaBuildDirs]
  · intro d hd
    simp [ninjaBuildDirs] at hd
  · intro h
    exact absurd h (by decide)
  · intro d hd
    simp [ninjaBuildDirs] at hd

theorem buildAllNinja_globalFacts (env : Env) (project : String)
    (clean : Bool) :
    GlobalFacts env project (build_project_all_ninja env project clean) := by
  unfold build_project_all_ninja
  cases hninja : env.ninja with
  | none => exact globalFacts_exit1_nil env project
  | some ninjaPath =>
    dsimp only
    by_cases hcf : env.pathExists (pjoin TOP_PATH project) = false
    · rw [if_pos hcf]
      exact globalFacts_exit1_nil env project
    · rw [if_neg hcf]
      by_cases hpd :
          env.pathExists (pjoin PROJECTS_PATH (project ++ "_platform")) = false
      · rw [if_pos hpd]
        exact globalFacts_exit1_nil env project
      · rw [if_neg hpd]
        cases hdom : collectDomains
            (env.readConf (pjoin TOP_PATH project) "platform") with
        | none =>
          dsimp only
          refine ⟨?_, ?_, ?_, ?_, ?_⟩
          · intro h
            rw [hdom] at h
            cases h
          · show ninjaBuildDirs [] <+: _
            simp [ninjaBuildDirs]
          · intro d hd
            simp [ninjaBuildDirs] at hd
          · intro h
            exact absurd h (by decide)
          · intro d hd
            simp [ninjaBuildDirs] at hd
        | some domains =>
          dsimp only
          by_cases hemp : domains.isEmpty
          · rw [if_pos hemp]
            exact globalFacts_exit1_nil env project
          · rw [if_neg hemp]
            have hsched1 : ninjaSchedule env project =
                (domains.map (fun d => bspBuildDir
                  (pjoin PROJECTS_PATH (project ++ "_platform")) d.2 d.1)) ++
                ((if (env.readConf (pjoin TOP_PATH project)
                      "platform").getbooleanFB "boot" "BOOT_COMPONENTS" true =
                    some true then
                    [pjoin (pjoin (pjoin PROJECTS_PATH (project ++ "_platform"))
                      "zynq_fsbl") "build"]
                  else []) ++
                 ((collectAppNames (env.readConf (pjoin TOP_PATH project)
                    "vitis")).map
                  (fun n => pjoin (pjoin PROJECTS_PATH n) "build"))) := by
              simp only [ninjaSchedule]
              rw [hdom]
              simp only [Option.getD_some]
              rw [List.append_assoc]
            have hbspSpec := buildBsps_stage env
              (pjoin PROJECTS_PATH (project ++ "_platform")) clean domains
            have hEmptyField : collectDomains (env.readConf
                (pjoin TOP_PATH project) "platform") = some [] → False := by
              intro h
              rw [hdom] at h
              cases h
              simp at hemp
            rcases hbsp : buildBsps env
                (pjoin PROJECTS_PATH (project ++ "_platform")) clean domains
              with ⟨o1, bspActs⟩
            rw [hbsp] at hbspSpec
            cases o1 with
            | some code =>
              dsimp only
              refine ⟨fun h => absurd h hEmptyField, ?_, ?_, ?_, ?_⟩ <;>
                [skip; skip; skip; skip] <;>
                have := globalTail_of_stage env project _ _ (some code, bspActs)
                  (BRes.exit code, bspActs) hbspSpec hsched1 rfl
                  (Or.inr (Or.inl ⟨code, rfl, rfl⟩))
              · exact this.1
              · exact this.2.1
              · exact this.2.2.1
              · exact this.2.2.2
            | none =>
              dsimp only
              cases hboot : (env.readConf (pjoin TOP_PATH project)
                  "platform").getbooleanFB "boot" "BOOT_COMPONENTS" true with
              | none =>
                dsimp only
                have hs2eq : (if (env.readConf (pjoin TOP_PATH project)
                    "platform").getbooleanFB "boot" "BOOT_COMPONENTS" true =
                    some true then
                    [pjoin (pjoin (pjoin PROJECTS_PATH (project ++ "_platform"))
                      "zynq_fsbl") "build"]
                  else []) = [] := by
                  rw [hboot]
                  simp
                refine ⟨fun h => absurd h hEmptyField, ?_, ?_, ?_, ?_⟩ <;>
                  have := globalTail_of_stage env project _ _ (none, bspActs)
                    (BRes.exc, bspActs) hbspSpec hsched1 rfl
                    (Or.inl ⟨rfl, rfl⟩)
                · exact this.1
                · exact this.2.1
                · exact this.2.2.1
                · exact this.2.2.2
              | some hasBoot =>
                dsimp only
                have hfsblSpec := buildFsbl_stage env
                  (pjoin PROJECTS_PATH (project ++ "_platform")) clean hasBoot
                have hfsblSched : (if hasBoot then
                    [pjoin (pjoin (pjoin PROJECTS_PATH (project ++ "_platform"))
                      "zynq_fsbl") "build"]
                  else []) = (if (env.readConf (pjoin TOP_PATH project)
                    "platform").getbooleanFB "boot" "BOOT_COMPONENTS" true =
                    some true then
                    [pjoin (pjoin (pjoin PROJECTS_PATH (project ++ "_platform"))
                      "zynq_fsbl") "build"]
                  else []) := by
                  cases hasBoot <;> simp [hboot]
                rw [hfsblSched] at hfsblSpec
                rcases hfsbl : buildFsbl env
                    (pjoin PROJECTS_PATH (project ++ "_platform")) clean hasBoot
                  with ⟨o2, fsblActs⟩
                rw [hfsbl] at hfsblSpec
                have hseq12 := stageSpec_seq hbspSpec hfsblSpec
                cases o2 with
                | some code =>
                  dsimp only
                  have hseqval : seqStage (none, bspActs) (some code, fsblActs) =
                      (some code, bspActs ++ fsblActs) := rfl
                  rw [hseqval] at hseq12
                  have hsched2 : ninjaSchedule env project =
                      ((domains.map (fun d => bspBuildDir
                        (pjoin PROJECTS_PATH (project ++ "_platform")) d.2 d.1)) ++
                       (if (env.readConf (pjoin TOP_PATH project)
                          "platform").getbooleanFB "boot" "BOOT_COMPONENTS" true =
                          some true then
                          [pjoin (pjoin (pjoin PROJECTS_PATH
                            (project ++ "_platform")) "zynq_fsbl") "build"]
                        else [])) ++
                      ((collectAppNames (env.readConf (pjoin TOP_PATH project)
                        "vitis")).map
                        (fun n => pjoin (pjoin PROJECTS_PATH n) "build")) := by
                    rw [hsched1, List.append_assoc]
                  refine ⟨fun h => absurd h hEmptyField, ?_, ?_, ?_, ?_⟩ <;>
                    have := globalTail_of_stage env project _ _
                      (some code, bspActs ++ fsblActs)
                      (BRes.exit code, bspActs ++ fsblActs) hseq12 hsched2 rfl
                      (Or.inr (Or.inl ⟨code, rfl, rfl⟩))
                  · exact this.1
                  · exact this.2.1
                  · exact this.2.2.1
                  · exact this.2.2.2
                | none =>
                  dsimp only
                  have hseqval : seqStage (none, bspActs) (none, fsblActs) =
                      (none, bspActs ++ fsblActs) := rfl
                  rw [hseqval] at hseq12
                  by_cases happ : (collectAppNames (env.readConf
                      (pjoin TOP_PATH project) "vitis")).isEmpty
                  · rw [if_pos happ]
                    have happnil : collectAppNames (env.readConf
                        (pjoin TOP_PATH project) "vitis") = [] :=
                      List.isEmpty_iff.mp happ
                    have hsched2 : ninjaSchedule env project =
                        ((domains.map (fun d => bspBuildDir
                          (pjoin PROJECTS_PATH (project ++ "_platform")) d.2 d.1)) ++
                         (if (env.readConf (pjoin TOP_PATH project)
                            "platform").getbooleanFB "boot" "BOOT_COMPONENTS" true =
                            some true then
                            [pjoin (pjoin (pjoin PROJECTS_PATH
                              (project ++ "_platform")) "zynq_fsbl") "build"]
                          else [])) ++ [] := by
                      rw [hsched1, List.append_assoc, happnil]
                      simp
                    refine ⟨fun h => absurd h hEmptyField, ?_, ?_, ?_, ?_⟩ <;>
                      have := globalTail_of_stage env project _ _
                        (none, bspActs ++ fsblActs)
                        (BRes.exit 0, bspActs ++ fsblActs) hseq12 hsched2 rfl
                        (Or.inr (Or.inr ⟨rfl, rfl, rfl⟩))
                    · exact this.1
                    · exact this.2.1
                    · exact this.2.2.1
                    · exact this.2.2.2
                  · rw [if_neg happ]
                    have happSpec := buildApps_stage env clean
                      (collectAppNames (env.readConf
                        (pjoin TOP_PATH project) "vitis"))
                    rcases happs : buildApps env clean
                        (collectAppNames (env.readConf
                          (pjoin TOP_PATH project) "vitis"))
                      with ⟨o3, appActs⟩
                    rw [happs] at happSpec
                    have hseq123 := stageSpec_seq hseq12 happSpec
                    have hsched3 : ninjaSchedule env project =
                        (((domains.map (fun d => bspBuildDir
                          (pjoin PROJECTS_PATH (project ++ "_platform")) d.2 d.1)) ++
                         (if (env.readConf (pjoin TOP_PATH project)
                            "platform").getbooleanFB "boot" "BOOT_COMPONENTS" true =
                            some true then
                            [pjoin (pjoin (pjoin PROJECTS_PATH
                              (project ++ "_platform")) "zynq_fsbl") "build"]
                          else [])) ++
                        ((collectAppNames (env.readConf (pjoin TOP_PATH project)
                          "vitis")).map
                          (fun n => pjoin (pjoin PROJECTS_PATH n) "build"))) ++ [] := by
                      rw [hsched1]
                      simp [List.append_assoc]
                    cases o3 with
                    | some code =>
                      dsimp only
                      have hseqval3 : seqStage (none, bspActs ++ fsblActs)
                          (some code, appActs) =
                          (some code, (bspActs ++ fsblActs) ++ appActs) := rfl
                      rw [hseqval3] at hseq123
                      refine ⟨fun h => absurd h hEmptyField, ?_, ?_, ?_, ?_⟩ <;>
                        have := globalTail_of_stage env project _ _
                          (some code, (bspActs ++ fsblActs) ++ appActs)
                          (BRes.exit code, bspActs ++ fsblActs ++ appActs)
                          hseq123 hsched3 (by rw [List.append_assoc])
                          (Or.inr (Or.inl ⟨code, rfl, rfl⟩))
                      · exact this.1
                      · exact this.2.1
                      · exact this.2.2.1
                      · exact this.2.2.2
                    | none =>
                      dsimp only
                      have hseqval3 : seqStage (none, bspActs ++ fsblActs)
                          (none, appActs) =
                          (none, (bspActs ++ fsblActs) ++ appActs) := rfl
                      rw [hseqval3] at hseq123
                      refine ⟨fun h => absurd h hEmptyField, ?_, ?_, ?_, ?_⟩ <;>
                        have := globalTail_of_stage env project _ _
                          (none, (bspActs ++ fsblActs) ++ appActs)
                          (BRes.exit 0, bspActs ++ fsblActs ++ appActs)
                          hseq123 hsched3 (by rw [List.append_assoc])
                          (Or.inr (Or.inr ⟨rfl, rfl, rfl⟩))
                      · exact this.1
                      · exact this.2.1
                      · exact this.2.2.1
                      · exact this.2.2.2

/-- A concrete environment for witnesses: every path exists, ninja is
found, every build succeeds, and every `.conf` file is empty. -/
def envA : Env where
  pathExists := fun _ => true
  ninja := some "ninja"
  runBuild := fun _ => 0
  runClean := fun _ => 0
  readConf := fun _ _ => Config.empty
  getComponent := fun _ => true
  componentBuild := fun _ => .ok 0
  platformCreateOut := fun _ => .ok 0
  appCreateOut := fun _ => .ok 0
  appConfigureOut := fun _ => .ok 0
  appCtorOk := fun _ => true
  domainConfigureOut := fun _ => .ok 0
  appUpdateOk := fun _ => true
  activateOk := fun _ => true

/-- Claim C1: `build_project_all_ninja` runs the build stages strictly in
order.  The executed ninja builds always form a prefix of the schedule
"BSP of every listed domain (primary `[domain]` first, then the sorted
`domain_N` sections), then the FSBL when `BOOT_COMPONENTS` is true or
absent, then every listed application"; every executed build except
possibly the last exited with code 0 (so no later build starts before all
earlier ones completed successfully); on overall exit code 0 the whole
schedule was executed; and when the platform configuration lists no
domain the function returns 1 without running any build. -/
theorem buildProjectAllNinja_stage_order (env : Env) (project : String)
    (clean : Bool) :
    (collectDomains (env.readConf (pjoin TOP_PATH project) "platform") =
        some [] →
      build_project_all_ninja env project clean = (BRes.exit 1, [])) ∧
    (ninjaBuildDirs (build_project_all_ninja env project clean).2 <+:
      ninjaSchedule env project) ∧
    (∀ d ∈ (ninjaBuildDirs
        (build_project_all_ninja env project clean).2).dropLast,
      env.runBuild d = 0) ∧
    ((build_project_all_ninja env project clean).1 = BRes.exit 0 →
      ninjaBuildDirs (build_project_all_ninja env project clean).2 =
        ninjaSchedule env project) := by
  have h := buildAllNinja_globalFacts env project clean
  exact ⟨h.emptyDomains, h.pre, h.dropLastZero, h.success⟩

/-- Witness for C1 at a concrete input: the empty configuration lists no
domain, and the call returns 1 with no build actions. -/
theorem buildProjectAllNinja_stage_order_witness :
    build_project_all_ninja envA "demo" false = (BRes.exit 1, []) :=
  (buildProjectAllNinja_stage_order envA "demo" false).1 (by decide)

/-! ### `vitis_build.ProjectBuilder` -/

/-- Did the external build call fail (nonzero status or exception)? -/
def VOutcome.failed : VOutcome → Bool
  | .raises => true
  | .ok s => s ≠ 0

/-- The section order `ProjectBuilder.__load_applications`,
`ProjectCreator.__create_applications`, `ProjectUpdater.__update_applications`
and `ProjectUpdater.__rebuild` all use: the primary `[application]` section
(when present) first, then the sorted `application_N` sections. -/
def applicationSections (vc : Config) : List String :=
  (if vc.hasSection "application" then ["application"] else []) ++
    numberedSections "application_" vc

/-- `ProjectBuilder.__load_applications`: the names of the loaded
application components, skipping sections missing `NAME` or `CONFIG`
(`__load_single_application`). -/
def loadedAppNames (vc : Config) : List String :=
  (applicationSections vc).filterMap (fun s =>
    match vc.get? s "NAME", vc.get? s "CONFIG" with
    | some n, some _ => some n
    | _, _ => none)

/-- The application loop of `ProjectBuilder.build`: each `app.build()` in
order; a nonzero status or an exception returns 1 immediately. -/
def buildAppsSeq (env : Env) : List String → Int × List Act
  | [] => (0, [])
  | n :: rest =>
    match env.componentBuild n with
    | .raises => (1, [Act.clientBuild n])
    | .ok s =>
      if s ≠ 0 then (1, [Act.clientBuild n])
      else
        let r := buildAppsSeq env rest
        (r.1, Act.clientBuild n :: r.2)

/-- `ProjectBuilder.build`: the platform first, then every loaded
application in order; the first nonzero status or exception returns 1. -/
def projectBuilderBuild (env : Env) (platformName : String)
    (appNames : List String) : Int × List Act :=
  match env.componentBuild platformName with
  | .raises => (1, [Act.clientBuild platformName])
  | .ok s =>
    if s ≠ 0 then (1, [Act.clientBuild platformName])
    else
      let rest := buildAppsSeq env appNames
      (rest.1, Act.clientBuild platformName :: rest.2)

/-- The invariant of the sequential vendor-build loops: invoked builds are
a prefix of the component list, exit 0 means everything was built
successfully, and a failed component is the last one invoked with exit
code 1 returned. -/
structure SeqSpec (env : Env) (names : List String) (res : Int × List Act) :
    Prop where
  pre : clientBuilds res.2 <+: names
  complete : res.1 = 0 →
    clientBuilds res.2 = names ∧
      ∀ n ∈ clientBuilds res.2, (env.componentBuild n).failed = false
  failLast : ∀ n ∈ clientBuilds res.2, (env.componentBuild n).failed = true →
    (clientBuilds res.2).getLast? = some n ∧ res.1 = 1

theorem buildAppsSeq_spec (env : Env) (names : List String) :
    SeqSpec env names (buildAppsSeq env names) := by
  induction names with
  | nil =>
    refine ⟨?_, ?_, ?_⟩ <;> simp [buildAppsSeq, clientBuilds]
  | cons n rest ih =>
    unfold buildAppsSeq
    cases hout : env.componentBuild n with
    | raises =>
      dsimp only
      refine ⟨?_, ?_, ?_⟩
      · show clientBuilds [Act.clientBuild n] <+: n :: rest
        simp only [clientBuilds, List.filterMap]
        exact List.cons_prefix_cons.mpr ⟨rfl, List.nil_prefix⟩
      · intro h
        simp at h
      · intro x hx hfail
        simp only [clientBuilds, List.filterMap] at hx ⊢
        rcases List.mem_singleton.mp hx with rfl
        simp
    | ok s =>
      dsimp only
      by_cases hs : s ≠ 0
      · rw [if_pos hs]
        refine ⟨?_, ?_, ?_⟩
        · show clientBuilds [Act.clientBuild n] <+: n :: rest
          simp only [clientBuilds, List.filterMap]
          exact List.cons_prefix_cons.mpr ⟨rfl, List.nil_prefix⟩
        · intro h
          simp at h
        · intro x hx hfail
          simp only [clientBuilds, List.filterMap] at hx ⊢
          rcases List.mem_singleton.mp hx with rfl
          simp
      · rw [if_neg hs]
        push_neg at hs
        subst hs
        have hnofail : (env.componentBuild n).failed = false := by
          rw [hout]
          simp [VOutcome.failed]
        have hbuilds : clientBuilds (Act.clientBuild n :: (buildAppsSeq env rest).2) =
            n :: clientBuilds (buildAppsSeq env rest).2 := by
          simp [clientBuilds]
        refine ⟨?_, ?_, ?_⟩
        · show clientBuilds (Act.clientBuild n :: (buildAppsSeq env rest).2) <+:
            n :: rest
          rw [hbuilds]
          exact List.cons_prefix_cons.mpr ⟨rfl, ih.pre⟩
        · intro h
          rcases ih.complete h with ⟨h1, h2⟩
          rw [hbuilds, h1]
          refine ⟨rfl, ?_⟩
          intro x hx
          rcases List.mem_cons.mp hx with rfl | hx
          · exact hnofail
          · rw [← h1] at hx
            exact h2 x hx
        · rw [hbuilds]
          intro x hx hfail
          rcases List.mem_cons.mp hx with rfl | hx
          · rw [hnofail] at hfail
            cases hfail
          · rcases ih.failLast x hx hfail with ⟨h1, h2⟩
            refine ⟨?_, h2⟩
            cases hcase : clientBuilds (buildAppsSeq env rest).2 with
            | nil =>
              rw [hcase] at hx
              cases hx
            | cons b bs =>
              rw [hcase] at h1
              rw [List.getLast?_cons_cons]
              exact h1

theorem projectBuilderBuild_spec (env : Env) (p : String)
    (apps : List String) :
    SeqSpec env (p :: apps) (projectBuilderBuild env p apps) := by
  unfold projectBuilderBuild
  cases hout : env.componentBuild p with
  | raises =>
    dsimp only
    refine ⟨?_, ?_, ?_⟩
    · show clientBuilds [Act.clientBuild p] <+: p :: apps
      simp only [clientBuilds, List.filterMap]
      exact List.cons_prefix_cons.mpr ⟨rfl, List.nil_prefix⟩
    · intro h
      simp at h
    · intro x hx hfail
      simp only [clientBuilds, List.filterMap] at hx ⊢
      rcases List.mem_singleton.mp hx with rfl
      simp
  | ok s =>
    dsimp only
    by_cases hs : s ≠ 0
    · rw [if_pos hs]
      refine ⟨?_, ?_, ?_⟩
      · show clientBuilds [Act.clientBuild p] <+: p :: apps
        simp only [clientBuilds, List.filterMap]
        exact List.cons_prefix_cons.mpr ⟨rfl, List.nil_prefix⟩
      · intro h
        simp at h
      · intro x hx hfail
        simp only [clientBuilds, List.filterMap] at hx ⊢
        rcases List.mem_singleton.mp hx with rfl
        simp
    · rw [if_neg hs]
      push_neg at hs
      subst hs
      have hnofail : (env.componentBuild p).failed = false := by
        rw [hout]
        simp [VOutcome.failed]
      have ih := buildAppsSeq_spec env apps
      have hbuilds : clientBuilds (Act.clientBuild p :: (buildAppsSeq env apps).2) =
          p :: clientBuilds (buildAppsSeq env apps).2 := by
        simp [clientBuilds]
      refine ⟨?_, ?_, ?_⟩
      · show clientBuilds (Act.clientBuild p :: (buildAppsSeq env apps).2) <+:
          p :: apps
        rw [hbuilds]
        exact List.cons_prefix_cons.mpr ⟨rfl, ih.pre⟩
      · intro h
        rcases ih.complete h with ⟨h1, h2⟩
        rw [hbuilds, h1]
        refine ⟨rfl, ?_⟩
        intro x hx
        rcases List.mem_cons.mp hx with rfl | hx
        · exact hnofail
        · rw [← h1] at hx
          exact h2 x hx
      · rw [hbuilds]
        intro x hx hfail
        rcases List.mem_cons.mp hx with rfl | hx
        · rw [hnofail] at hfail
          cases hfail
        · rcases ih.failLast x hx hfail with ⟨h1, h2⟩
          refine ⟨?_, h2⟩
          cases hcase : clientBuilds (buildAppsSeq env apps).2 with
          | nil =>
            rw [hcase] at hx
            cases hx
          | cons b bs =>
            rw [hcase] at h1
            rw [List.getLast?_cons_cons]
            exact h1

/-- Claim C3: neither `ProjectBuilder.build` nor `build_project_all_ninja`
retries a component.  The invoked vendor builds form a prefix of the
component list (platform, then the loaded applications, each at most once);
exit 0 means every listed component was built and none failed; a failing
component (nonzero status or exception) is the last component invoked and
makes the function return 1 immediately; the executed ninja builds form a
prefix of the ninja schedule and a ninja build with nonzero exit code is
the last one run, its code becoming the returned status; and a failing
`ninja clean` is tolerated — the same component's build still runs and
determines the result, whatever the clean's exit code was. -/
theorem build_first_failure_stops (env : Env) (p : String)
    (apps : List String) (project : String) (clean : Bool) (dir : String) :
    (clientBuilds (projectBuilderBuild env p apps).2 <+: p :: apps) ∧
    ((projectBuilderBuild env p apps).1 = 0 →
      clientBuilds (projectBuilderBuild env p apps).2 = p :: apps ∧
      ∀ n ∈ clientBuilds (projectBuilderBuild env p apps).2,
        (env.componentBuild n).failed = false) ∧
    (∀ n ∈ clientBuilds (projectBuilderBuild env p apps).2,
      (env.componentBuild n).failed = true →
      (clientBuilds (projectBuilderBuild env p apps).2).getLast? = some n ∧
        (projectBuilderBuild env p apps).1 = 1) ∧
    (ninjaBuildDirs (build_project_all_ninja env project clean).2 <+:
      ninjaSchedule env project) ∧
    (∀ d ∈ ninjaBuildDirs (build_project_all_ninja env project clean).2,
      env.runBuild d ≠ 0 →
      (ninjaBuildDirs (build_project_all_ninja env project clean).2).getLast? =
        some d ∧
      (build_project_all_ninja env project clean).1 =
        BRes.exit (env.runBuild d)) ∧
    (env.pathExists (pjoin dir "build.ninja") = true →
      runNinjaInDirectory env dir true =
        (env.runBuild dir,
          [Act.ninjaClean dir (env.runClean dir), Act.ninjaBuild dir])) := by
  have hseq := projectBuilderBuild_spec env p apps
  have hglob := buildAllNinja_globalFacts env project clean
  refine ⟨hseq.pre, hseq.complete, hseq.failLast, hglob.pre, hglob.failLast, ?_⟩
  intro h
  simp [runNinjaInDirectory, h]

/-- Witness for C3 at a concrete input: with `build.ninja` present the
clean runs, then the build, and the build's exit code is returned. -/
theorem build_first_failure_stops_witness :
    runNinjaInDirectory envA "dir" true =
      (0, [Act.ninjaClean "dir" 0, Act.ninjaBuild "dir"]) :=
  (build_first_failure_stops envA "plat" ["app"] "demo" false
    "dir").2.2.2.2.2 rfl

/-- Claim C8: `read_config` on a missing `.conf` file returns a parser
with no sections — every `has_section` / `has_option` guard then takes its
absent branch and every unguarded `get` sees no section, instead of the
call raising. -/
theorem read_config_missing_file (fs : ConfFS) (folder filename : String)
    (h : fs (pjoin folder (filename ++ ".conf")) = none) :
    read_config fs folder filename = Config.empty ∧
    (read_config fs folder filename).sectionNames = [] ∧
    (∀ s, (read_config fs folder filename).hasSection s = false) ∧
    (∀ s o, (read_config fs folder filename).hasOption s o = false) ∧
    (∀ s o, (read_config fs folder filename).get? s o = none) := by
  have he : read_config fs folder filename = Config.empty := by
    unfold read_config
    rw [h]
  rw [he]
  exact ⟨rfl, rfl, fun _ => rfl, fun _ _ => rfl, fun _ _ => rfl⟩

/-- Witness for C8: a file system with no `.conf` files at all. -/
theorem read_config_missing_file_witness :
    read_config (fun _ => none) "Top" "platform" = Config.empty :=
  (read_config_missing_file (fun _ => none) "Top" "platform" rfl).1

/-! ### Numbered-section processing order (C9)

All sorted iterations go through `numberedSections`; the one exception in
the sources is `VitisPlatform.__init__`, whose `domain_N` loop iterates
the filtered list in file order without sorting. -/

/-- `VitisPlatform.__init__` domain processing order: the `[domain]`
section, then the `domain_N` sections in configuration-file order. -/
def platformInitDomainSections (pc : Config) : List String :=
  "domain" :: numberedSectionsUnsorted "domain_" pc

/-- `ProjectUpdater.__update_domains` processing order: the `[domain]`
section, then the sorted `domain_N` sections. -/
def updateDomainSections (pc : Config) : List String :=
  "domain" :: numberedSections "domain_" pc

/-- `VitisApplication.__add_launch_configs` processing order: `[launch]`
first when present, then the sorted `launch_N` sections. -/
def launchSections (ac : Config) : List String :=
  (if ac.hasSection "launch" then ["launch"] else []) ++
    numberedSections "launch_" ac

theorem firstPos_append_of_not_mem {a : String} {l1 l2 : List String}
    (h : a ∉ l1) : firstPos a (l1 ++ l2) = l1.length + firstPos a l2 := by
  induction l1 with
  | nil => simp [firstPos]
  | cons x xs ih =>
    have hxa : x ≠ a := fun he => h (he ▸ List.mem_cons_self x xs)
    have hmem : a ∉ xs := fun hm => h (List.mem_cons_of_mem x hm)
    rw [List.cons_append, firstPos, if_neg hxa, ih hmem, List.length_cons]
    omega

/-- Shared lemma: inside any `numberedSections` iteration, a
lexicographically smaller matching section name is processed first. -/
theorem numberedSections_lex_order (c : Config) (pre a b : String)
    (hma : matchesNumbered pre a = true) (hmb : matchesNumbered pre b = true)
    (hab : strLe a b = true) (hne : a ≠ b)
    (ha : a ∈ c.sectionNames) (hb : b ∈ c.sectionNames) :
    firstPos a (numberedSections pre c) <
      firstPos b (numberedSections pre c) := by
  unfold numberedSections
  refine firstPos_lt_of_strSorted (strSorted_pySorted _) ?_ ?_ hab hne
  · exact mem_pySorted.mpr (List.mem_filter.mpr ⟨ha, hma⟩)
  · exact mem_pySorted.mpr (List.mem_filter.mpr ⟨hb, hmb⟩)

/-- Counterexample configuration for C9: `domain_2` listed before
`domain_10` in the file. -/
def configDomainsFileOrder : Config :=
  ⟨[("domain_2", [("NAME", "d2")]), ("domain_10", [("NAME", "d10")])]⟩

/-- Counterexample for claim C9 as stated: during CREATE, the platform
constructor (`VitisPlatform.__init__`) iterates `domain_N` sections in
file order, so with `domain_2` listed before `domain_10` it processes
`domain_2` first, although `domain_10` precedes `domain_2`
lexicographically.  The claimed lexicographic processing order is
violated at this concrete input. -/
theorem numbered_sections_lex_counterexample :
    strLe "domain_10" "domain_2" = true ∧
    "domain_10" ≠ "domain_2" ∧
    "domain_10" ∈ configDomainsFileOrder.sectionNames ∧
    "domain_2" ∈ configDomainsFileOrder.sectionNames ∧
    firstPos "domain_2" (platformInitDomainSections configDomainsFileOrder) <
      firstPos "domain_10"
        (platformInitDomainSections configDomainsFileOrder) := by
  decide

/-- Claim C9 (amended): numbered sections are processed in lexicographic
order of the full section name — `application_10` before `application_2`
in the application loops of CREATE, BUILD and UPDATE, `domain_10` before
`domain_2` in the domain loops of UPDATE and the ninja full build, and
`launch_10` before `launch_2` in launch-config generation — except that
`VitisPlatform.__init__` (platform creation) iterates its `domain_N`
sections in configuration-file order without sorting. -/
theorem numbered_sections_lex_order_ops (c : Config)
    (h10 : "application_10" ∈ c.sectionNames)
    (h2 : "application_2" ∈ c.sectionNames)
    (hd10 : "domain_10" ∈ c.sectionNames)
    (hd2 : "domain_2" ∈ c.sectionNames)
    (hl10 : "launch_10" ∈ c.sectionNames)
    (hl2 : "launch_2" ∈ c.sectionNames) :
    (firstPos "application_10" (numberedSections "application_" c) <
      firstPos "application_2" (numberedSections "application_" c)) ∧
    (firstPos "application_10" (applicationSections c) <
      firstPos "application_2" (applicationSections c)) ∧
    (firstPos "domain_10" (numberedSections "domain_" c) <
      firstPos "domain_2" (numberedSections "domain_" c)) ∧
    (firstPos "domain_10" (updateDomainSections c) <
      firstPos "domain_2" (updateDomainSections c)) ∧
    (firstPos "launch_10" (launchSections c) <
      firstPos "launch_2" (launchSections c)) ∧
    platformInitDomainSections c =
      "domain" :: (c.sectionNames).filter (matchesNumbered "domain_") := by
  have happ := numberedSections_lex_order c "application_"
    "application_10" "application_2" (by decide) (by decide) (by decide)
    (by decide) h10 h2
  have hdom := numberedSections_lex_order c "domain_" "domain_10" "domain_2"
    (by decide) (by decide) (by decide) (by decide) hd10 hd2
  have hlau := numberedSections_lex_order c "launch_" "launch_10" "launch_2"
    (by decide) (by decide) (by decide) (by decide) hl10 hl2
  refine ⟨happ, ?_, hdom, ?_, ?_, rfl⟩
  · unfold applicationSections
    by_cases hp : c.hasSection "application"
    · rw [if_pos hp]
      rw [firstPos_append_of_not_mem (by decide),
        firstPos_append_of_not_mem (by decide)]
      omega
    · rw [if_neg hp]
      rw [firstPos_append_of_not_mem (by decide),
        firstPos_append_of_not_mem (by decide)]
      omega
  · unfold updateDomainSections
    simp only [firstPos, if_neg (by decide : ¬ ("domain" = "domain_10")),
      if_neg (by decide : ¬ ("domain" = "domain_2"))]
    omega
  · unfold launchSections
    by_cases hp : c.hasSection "launch"
    · rw [if_pos hp]
      rw [firstPos_append_of_not_mem (by decide),
        firstPos_append_of_not_mem (by decide)]
      omega
    · rw [if_neg hp]
      rw [firstPos_append_of_not_mem (by decide),
        firstPos_append_of_not_mem (by decide)]
      omega

/-- Configuration holding every numbered section the C9 witness needs. -/
def configAllNumbered : Config :=
  ⟨[("application_10", []), ("application_2", []), ("domain_10", []),
    ("domain_2", []), ("launch_10", []), ("launch_2", [])]⟩

/-- Witness for the amended C9 at a concrete configuration. -/
theorem numbered_sections_lex_order_ops_witness :
    firstPos "application_10" (applicationSections configAllNumbered) <
      firstPos "application_2" (applicationSections configAllNumbered) :=
  (numbered_sections_lex_order_ops configAllNumbered (by decide) (by decide)
    (by decide) (by decide) (by decide) (by decide)).2.1

/-! ### `vitis_create.ProjectCreator` -/

/-- Does the action create or configure a component (as opposed to
building one)? -/
def Act.isBuildAct : Act → Bool
  | .clientBuild _ => true
  | .ninjaBuild _ => true
  | _ => false

/-- `VitisPlatform.__init__`: every processed domain section is read with
unguarded `get` calls; `none` models the exception raised when `NAME`,
`DISPLAY_NAME`, `PROCESSOR_INSTANCE` or `CONFIG` is missing. -/
def platformCtorDomains (pc : Config) : Option (List String) :=
  (platformInitDomainSections pc).foldr
    (fun s acc =>
      match acc with
      | none => none
      | some l =>
        match pc.get? s "NAME", pc.get? s "DISPLAY_NAME",
            pc.get? s "PROCESSOR_INSTANCE", pc.get? s "CONFIG" with
        | some n, some _, some _, some _ => some (n :: l)
        | _, _, _, _ => none)
    (some [])

/-- The `__create_applications` loop over the eligible application names:
constructor, `create()`, `configure()` for each, any exception aborting
the whole CREATE; on success the created names are returned. -/
def createAppsLoop (env : Env) : List String → Option (List String) × List Act
  | [] => (some [], [])
  | n :: rest =>
    if env.appCtorOk n = false then (none, [])
    else
      match env.appCreateOut n with
      | .raises => (none, [Act.appCreate n])
      | .ok _ =>
        match env.appConfigureOut n with
        | .raises => (none, [Act.appCreate n, Act.appConfigure n])
        | .ok _ =>
          let r := createAppsLoop env rest
          (r.1.map (fun l => n :: l),
            Act.appCreate n :: Act.appConfigure n :: r.2)

/-- The final loop of `ProjectCreator.create`: `app.build()` on every
created application, statuses ignored, exceptions aborting. -/
def creatorBuildLoop (env : Env) : List String → Bool × List Act
  | [] => (true, [])
  | n :: rest =>
    match env.componentBuild n with
    | .raises => (false, [Act.clientBuild n])
    | .ok _ =>
      let r := creatorBuildLoop env rest
      (r.1, Act.clientBuild n :: r.2)

/-- Completed-CREATE result (`none` models an uncaught exception). -/
inductive CRes where
  | ok
  | exc
deriving DecidableEq

/-- `ProjectCreator.create`: build the platform component object (its
constructor parses the domain sections), `platform.create()`, create and
configure every eligible application, then `platform.build()`, then
`app.build()` for each created application, statuses of the builds
ignored. -/
def projectCreatorCreate (env : Env) (cfgTop platformConf : Config) :
    CRes × List Act :=
  match cfgTop.get? "platform" "NAME", cfgTop.get? "platform" "DESCRIPTION",
      cfgTop.get? "platform" "CONFIG" with
  | some pname, some _, some _ =>
    match platformCtorDomains platformConf with
    | none => (CRes.exc, [])
    | some _ =>
      match env.platformCreateOut pname with
      | .raises => (CRes.exc, [Act.platformCreate pname])
      | .ok _ =>
        match createAppsLoop env (loadedAppNames cfgTop) with
        | (none, acts) => (CRes.exc, Act.platformCreate pname :: acts)
        | (some created, acts) =>
          match env.componentBuild (pname ++ "_platform") with
          | .raises =>
            (CRes.exc, Act.platformCreate pname :: acts ++
              [Act.clientBuild (pname ++ "_platform")])
          | .ok _ =>
            let r := creatorBuildLoop env created
            ((if r.1 then CRes.ok else CRes.exc),
              Act.platformCreate pname :: acts ++
                Act.clientBuild (pname ++ "_platform") :: r.2)
  | _, _, _ => (CRes.exc, [])

/-- The creation-and-configuration actions CREATE is scheduled to run, in
order. -/
def creatorCreationActs (cfgTop : Config) : List Act :=
  match cfgTop.get? "platform" "NAME" with
  | none => []
  | some pname =>
    Act.platformCreate pname ::
      (loadedAppNames cfgTop).foldr
        (fun n acc => Act.appCreate n :: Act.appConfigure n :: acc) []

/-- The build actions CREATE is scheduled to run after all creation. -/
def creatorBuildActs (cfgTop : Config) : List Act :=
  match cfgTop.get? "platform" "NAME" with
  | none => []
  | some pname =>
    Act.clientBuild (pname ++ "_platform") ::
      (loadedAppNames cfgTop).map Act.clientBuild

theorem mem_createConfig_foldr {names : List String} {a : Act}
    (ha : a ∈ names.foldr
      (fun n acc => Act.appCreate n :: Act.appConfigure n :: acc) []) :
    (∃ n, a = Act.appCreate n) ∨ (∃ n, a = Act.appConfigure n) := by
  induction names with
  | nil => cases ha
  | cons n rest ih =>
    rcases List.mem_cons.mp ha with rfl | ha1
    · exact Or.inl ⟨n, rfl⟩
    · rcases List.mem_cons.mp ha1 with rfl | ha2
      · exact Or.inr ⟨n, rfl⟩
      · exact ih ha2

theorem mem_creatorCreationActs_not_build (cfgTop : Config) :
    ∀ a ∈ creatorCreationActs cfgTop, a.isBuildAct = false := by
  unfold creatorCreationActs
  cases cfgTop.get? "platform" "NAME" with
  | none => simp
  | some pname =>
    intro a ha
    rcases List.mem_cons.mp ha with rfl | ha
    · rfl
    · rcases mem_createConfig_foldr ha with ⟨n, rfl⟩ | ⟨n, rfl⟩ <;> rfl

theorem mem_creatorBuildActs_build (cfgTop : Config) :
    ∀ a ∈ creatorBuildActs cfgTop, a.isBuildAct = true := by
  unfold creatorBuildActs
  cases cfgTop.get? "platform" "NAME" with
  | none => simp
  | some pname =>
    intro a ha
    rcases List.mem_cons.mp ha with rfl | ha
    · rfl
    · rcases List.mem_map.mp ha with ⟨n, _, rfl⟩
      rfl

/-- Splitting a prefix of an appended list. -/
theorem prefix_append_split {α : Type} {tr c b : List α}
    (hpre : tr <+: c ++ b) :
    ∃ u v, tr = u ++ v ∧ u ⊆ c ∧ v <+: b := by
  have h : tr = (c ++ b).take tr.length := List.prefix_iff_eq_take.mp hpre
  have h2 : tr = c.take tr.length ++ b.take (tr.length - c.length) := by
    conv_lhs => rw [h]
    rw [List.take_append_eq_append_take]
  exact ⟨_, _, h2, List.take_subset _ _, List.take_prefix _ _⟩

theorem createAppsLoop_pre (env : Env) (names : List String) :
    (createAppsLoop env names).2 <+:
      names.foldr (fun n acc => Act.appCreate n :: Act.appConfigure n :: acc)
        [] := by
  induction names with
  | nil => simp [createAppsLoop]
  | cons n rest ih =>
    unfold createAppsLoop
    by_cases hc : env.appCtorOk n = false
    · rw [if_pos hc]
      exact List.nil_prefix
    · rw [if_neg hc]
      cases env.appCreateOut n with
      | raises =>
        exact List.cons_prefix_cons.mpr ⟨rfl, List.nil_prefix⟩
      | ok s =>
        cases env.appConfigureOut n with
        | raises =>
          exact List.cons_prefix_cons.mpr ⟨rfl,
            List.cons_prefix_cons.mpr ⟨rfl, List.nil_prefix⟩⟩
        | ok s2 =>
          exact List.cons_prefix_cons.mpr ⟨rfl,
            List.cons_prefix_cons.mpr ⟨rfl, ih⟩⟩

theorem createAppsLoop_complete (env : Env) (names : List String)
    (h : ∀ n ∈ names, env.appCtorOk n = true ∧
      env.appCreateOut n ≠ VOutcome.raises ∧
      env.appConfigureOut n ≠ VOutcome.raises) :
    createAppsLoop env names =
      (some names,
        names.foldr
          (fun n acc => Act.appCreate n :: Act.appConfigure n :: acc) []) := by
  induction names with
  | nil => simp [createAppsLoop]
  | cons n rest ih =>
    rcases h n (List.mem_cons_self n rest) with ⟨h1, h2, h3⟩
    unfold createAppsLoop
    rw [if_neg (by rw [h1]; exact Bool.true_eq_false ▸ (by simp))]
    cases hcr : env.appCreateOut n with
    | raises => exact absurd hcr h2
    | ok s =>
      cases hcf : env.appConfigureOut n with
      | raises => exact absurd hcf h3
      | ok s2 =>
        have := ih (fun m hm => h m (List.mem_cons_of_mem n hm))
        rw [this]
        rfl

theorem creatorBuildLoop_pre (env : Env) (names : List String) :
    (creatorBuildLoop env names).2 <+: names.map Act.clientBuild := by
  induction names with
  | nil => simp [creatorBuildLoop]
  | cons n rest ih =>
    unfold creatorBuildLoop
    cases env.componentBuild n with
    | raises => exact List.cons_prefix_cons.mpr ⟨rfl, List.nil_prefix⟩
    | ok s => exact List.cons_prefix_cons.mpr ⟨rfl, ih⟩

theorem creatorBuildLoop_complete (env : Env) (names : List String)
    (h : ∀ n ∈ names, env.componentBuild n ≠ VOutcome.raises) :
    creatorBuildLoop env names = (true, names.map Act.clientBuild) := by
  induction names with
  | nil => simp [creatorBuildLoop]
  | cons n rest ih =>
    unfold creatorBuildLoop
    cases hn : env.componentBuild n with
    | raises => exact absurd hn (h n (List.mem_cons_self n rest))
    | ok s =>
      rw [ih (fun m hm => h m (List.mem_cons_of_mem n hm))]
      rfl

theorem createAppsLoop_some (env : Env) (names : List String)
    {created : List String}
    (h : (createAppsLoop env names).1 = some created) :
    created = names ∧
      (createAppsLoop env names).2 =
        names.foldr
          (fun n acc => Act.appCreate n :: Act.appConfigure n :: acc) [] := by
  induction names generalizing created with
  | nil =>
    simp [createAppsLoop] at h
    subst h
    exact ⟨rfl, rfl⟩
  | cons n rest ih =>
    unfold createAppsLoop at h ⊢
    by_cases hc : env.appCtorOk n = false
    · rw [if_pos hc] at h
      cases h
    · rw [if_neg hc] at h ⊢
      cases hcr : env.appCreateOut n with
      | raises =>
        rw [hcr] at h
        dsimp only at h
        cases h
      | ok s =>
        rw [hcr] at h
        cases hcf : env.appConfigureOut n with
        | raises =>
          rw [hcf] at h
          dsimp only at h
          cases h
        | ok s2 =>
          rw [hcf] at h
          dsimp only at h ⊢
          cases hr : (createAppsLoop env rest).1 with
          | none =>
            rw [hr] at h
            dsimp only [Option.map] at h
            cases h
          | some l =>
            rw [hr] at h
            dsimp only [Option.map] at h
            cases h
            rcases ih hr with ⟨h1, h2⟩
            subst h1
            rw [h2]
            exact ⟨rfl, rfl⟩

/-- Claim C6: during CREATE, all creation and configuration precedes every
build.  The action trace of `ProjectCreator.create` is a prefix of
"create the platform, create+configure every eligible application in
order, build the platform, build each created application in the same
order"; the trace therefore splits into creation/configuration actions
followed only by build actions; and when no step raises, the whole
schedule runs and the trace equals it. -/
theorem projectCreator_create_order (env : Env) (cfgTop pconf : Config) :
    ((projectCreatorCreate env cfgTop pconf).2 <+:
      creatorCreationActs cfgTop ++ creatorBuildActs cfgTop) ∧
    (∃ u v, (projectCreatorCreate env cfgTop pconf).2 = u ++ v ∧
      (∀ a ∈ u, a.isBuildAct = false) ∧
      (∀ a ∈ v, a.isBuildAct = true)) ∧
    (∀ pname ds,
      cfgTop.get? "platform" "NAME" = some pname →
      (cfgTop.get? "platform" "DESCRIPTION").isSome →
      (cfgTop.get? "platform" "CONFIG").isSome →
      platformCtorDomains pconf = some ds →
      env.platformCreateOut pname ≠ VOutcome.raises →
      (∀ n ∈ loadedAppNames cfgTop, env.appCtorOk n = true ∧
        env.appCreateOut n ≠ VOutcome.raises ∧
        env.appConfigureOut n ≠ VOutcome.raises ∧
        env.componentBuild n ≠ VOutcome.raises) →
      env.componentBuild (pname ++ "_platform") ≠ VOutcome.raises →
      projectCreatorCreate env cfgTop pconf =
        (CRes.ok, creatorCreationActs cfgTop ++ creatorBuildActs cfgTop)) := by
  have hpre : (projectCreatorCreate env cfgTop pconf).2 <+:
      creatorCreationActs cfgTop ++ creatorBuildActs cfgTop := by
    unfold projectCreatorCreate creatorCreationActs creatorBuildActs
    cases hname : cfgTop.get? "platform" "NAME" with
    | none => exact List.nil_prefix
    | some pname =>
      cases hdesc : cfgTop.get? "platform" "DESCRIPTION" with
      | none => exact List.nil_prefix
      | some desc =>
        cases hcfg : cfgTop.get? "platform" "CONFIG" with
        | none => exact List.nil_prefix
        | some cfgName =>
          dsimp only
          cases hds : platformCtorDomains pconf with
          | none => exact List.nil_prefix
          | some ds =>
            dsimp only
            cases hpc : env.platformCreateOut pname with
            | raises =>
              exact List.cons_prefix_cons.mpr ⟨rfl, List.nil_prefix⟩
            | ok s =>
              dsimp only
              rcases happ : createAppsLoop env (loadedAppNames cfgTop)
                with ⟨o, acts⟩
              cases o with
              | none =>
                dsimp only
                refine List.cons_prefix_cons.mpr ⟨rfl, ?_⟩
                have h1 : acts <+: (loadedAppNames cfgTop).foldr
                    (fun n acc =>
                      Act.appCreate n :: Act.appConfigure n :: acc) [] := by
                  have := createAppsLoop_pre env (loadedAppNames cfgTop)
                  rw [happ] at this
                  exact this
                exact h1.trans (List.prefix_append _ _)
              | some created =>
                dsimp only
                have hsome : (createAppsLoop env
                    (loadedAppNames cfgTop)).1 = some created := by
                  rw [happ]
                rcases createAppsLoop_some env (loadedAppNames cfgTop) hsome
                  with ⟨hcreated, hacts⟩
                rw [happ] at hacts
                dsimp only at hacts
                subst hcreated
                subst hacts
                cases hcb : env.componentBuild (pname ++ "_platform") with
                | raises =>
                  refine List.cons_prefix_cons.mpr ⟨rfl, ?_⟩
                  refine ⟨(loadedAppNames cfgTop).map Act.clientBuild, ?_⟩
                  simp
                | ok s2 =>
                  refine List.cons_prefix_cons.mpr ⟨rfl, ?_⟩
                  have hb := creatorBuildLoop_pre env (loadedAppNames cfgTop)
                  have hcons : Act.clientBuild (pname ++ "_platform") ::
                      (creatorBuildLoop env (loadedAppNames cfgTop)).2 <+:
                      Act.clientBuild (pname ++ "_platform") ::
                        (loadedAppNames cfgTop).map Act.clientBuild :=
                    List.cons_prefix_cons.mpr ⟨rfl, hb⟩
                  rcases hcons with ⟨t, ht⟩
                  refine ⟨t, ?_⟩
                  simp only [List.append_eq]
                  rw [List.append_assoc, ht]
  refine ⟨hpre, ?_, ?_⟩
  · rcases prefix_append_split hpre with ⟨u, v, heq, hu, hv⟩
    exact ⟨u, v, heq,
      fun a ha => mem_creatorCreationActs_not_build cfgTop a (hu ha),
      fun a ha => mem_creatorBuildActs_build cfgTop a (hv.subset ha)⟩
  · intro pname ds hname hdesc hcfg hds hpc happs hcb
    unfold projectCreatorCreate creatorCreationActs creatorBuildActs
    rw [hname]
    rcases Option.isSome_iff_exists.mp hdesc with ⟨d, hd⟩
    rcases Option.isSome_iff_exists.mp hcfg with ⟨cn, hcn⟩
    rw [hd, hcn]
    dsimp only
    rw [hds]
    cases hpco : env.platformCreateOut pname with
    | raises => exact absurd hpco hpc
    | ok s =>
      dsimp only
      rw [createAppsLoop_complete env (loadedAppNames cfgTop)
        (fun n hn => ⟨(happs n hn).1, (happs n hn).2.1, (happs n hn).2.2.1⟩)]
      dsimp only
      cases hcbo : env.componentBuild (pname ++ "_platform") with
      | raises => exact absurd hcbo hcb
      | ok s2 =>
        dsimp only
        rw [creatorBuildLoop_complete env (loadedAppNames cfgTop)
          (fun n hn => (happs n hn).2.2.2)]
        dsimp only
        rw [List.cons_append]
        simp

/-- Configuration for the C6 witness: one platform and one application. -/
def configCreateDemo : Config :=
  ⟨[("platform", [("NAME", "p"), ("DESCRIPTION", "d"), ("CONFIG", "pc")]),
    ("application", [("NAME", "a"), ("CONFIG", "ac")])]⟩

/-- Platform configuration for the C6 witness: a single `[domain]`. -/
def configPlatformDemo : Config :=
  ⟨[("domain", [("NAME", "dom"), ("DISPLAY_NAME", "dom"),
    ("PROCESSOR_INSTANCE", "cpu0"), ("CONFIG", "dc")])]⟩

/-- Witness for C6: on a concrete project with one application and no
failing step, CREATE runs create-platform, create+configure the
application, build the platform, build the application — in that order. -/
theorem projectCreator_create_order_witness :
    projectCreatorCreate envA configCreateDemo configPlatformDemo =
      (CRes.ok,
        creatorCreationActs configCreateDemo ++
          creatorBuildActs configCreateDemo) :=
  (projectCreator_create_order envA configCreateDemo
      configPlatformDemo).2.2 "p" ["dom"] (by decide) (by decide) (by decide)
    (by decide) (by decide) (by decide) (by decide)

/-! ### `vitis_update.ProjectUpdater` -/

/-- The UPDATE command's flags. -/
structure UpdateArgs where
  platformOnly : Bool
  applicationOnly : Bool
  noBuild : Bool

/-- The domain loop of `ProjectUpdater.__update_domains`: each processed
section needs `NAME`, `CONFIG` and `PROCESSOR_INSTANCE` (unguarded gets),
then the domain wrapper's `configure()` runs. -/
def updateDomainsSeq (env : Env) (pc : Config) :
    List String → Option Unit × List Act
  | [] => (some (), [])
  | s :: rest =>
    match pc.get? s "NAME", pc.get? s "CONFIG",
        pc.get? s "PROCESSOR_INSTANCE" with
    | some n, some _, some _ =>
      match env.domainConfigureOut n with
      | .raises => (none, [Act.domainConfigure n])
      | .ok _ =>
        let r := updateDomainsSeq env pc rest
        (r.1, Act.domainConfigure n :: r.2)
    | _, _, _ => (none, [])

/-- `ProjectUpdater.__update_platform`: read the platform config, retrieve
the platform component (a missing component raises `RuntimeError`), then
update every domain. -/
def updatePlatformStep (env : Env) (cfgTop : Config)
    (configFolder : String) : Option Unit × List Act :=
  match cfgTop.get? "platform" "NAME", cfgTop.get? "platform" "CONFIG" with
  | some pname, some pcName =>
    let pc := env.readConf configFolder pcName
    if env.getComponent (pname ++ "_platform") = false then (none, [])
    else updateDomainsSeq env pc (updateDomainSections pc)
  | _, _ => (none, [])

/-- `ProjectUpdater.__update_applications` /
`__update_single_application`: sections without `NAME` are skipped, a
missing `CONFIG` raises (the get is unguarded), a missing application
directory is only logged, otherwise `ApplicationUpdater.update()` runs. -/
def updateAppsSeq (env : Env) (cfgTop : Config) :
    List String → Option Unit × List Act
  | [] => (some (), [])
  | s :: rest =>
    if cfgTop.hasOption s "NAME" = false then updateAppsSeq env cfgTop rest
    else
      match cfgTop.get? s "NAME" with
      | none => (none, [])
      | some appName =>
        match cfgTop.get? s "CONFIG" with
        | none => (none, [])
        | some _ =>
          if env.pathExists (pjoin PROJECTS_PATH appName) = false then
            updateAppsSeq env cfgTop rest
          else if env.appUpdateOk appName = false then
            (none, [Act.appUpdate appName])
          else
            let r := updateAppsSeq env cfgTop rest
            (r.1, Act.appUpdate appName :: r.2)

/-- The `application_N` part of `ProjectUpdater.__rebuild`: rebuild every
named application whose component can be retrieved. -/
def rebuildAppsSeq (env : Env) (cfgTop : Config) :
    List String → Option Unit × List Act
  | [] => (some (), [])
  | s :: rest =>
    if cfgTop.hasOption s "NAME" = false then rebuildAppsSeq env cfgTop rest
    else
      match cfgTop.get? s "NAME" with
      | none => (none, [])
      | some appName =>
        if env.getComponent appName then
          match env.componentBuild appName with
          | .raises => (none, [Act.clientBuild appName])
          | .ok _ =>
            let r := rebuildAppsSeq env cfgTop rest
            (r.1, Act.clientBuild appName :: r.2)
        else rebuildAppsSeq env cfgTop rest

/-- `ProjectUpdater.__rebuild`: rebuild the platform component when it can
be retrieved, then the primary application, then the sorted numbered
applications; build statuses are ignored, exceptions propagate. -/
def rebuildStep (env : Env) (cfgTop : Config) : Option Unit × List Act :=
  match cfgTop.get? "platform" "NAME" with
  | none => (none, [])
  | some pname =>
    let plat : Option Unit × List Act :=
      if env.getComponent (pname ++ "_platform") then
        match env.componentBuild (pname ++ "_platform") with
        | .raises => (none, [Act.clientBuild (pname ++ "_platform")])
        | .ok _ => (some (), [Act.clientBuild (pname ++ "_platform")])
      else (some (), [])
    match plat with
    | (none, a) => (none, a)
    | (some _, a) =>
      let primary : Option Unit × List Act :=
        if cfgTop.hasSection "application" then
          match cfgTop.get? "application" "NAME" with
          | none => (none, [])
          | some appName =>
            if env.getComponent appName then
              match env.componentBuild appName with
              | .raises => (none, [Act.clientBuild appName])
              | .ok _ => (some (), [Act.clientBuild appName])
            else (some (), [])
        else (some (), [])
      match primary with
      | (none, b) => (none, a ++ b)
      | (some _, b) =>
        let r := rebuildAppsSeq env cfgTop
          (numberedSections "application_" cfgTop)
        (r.1, a ++ b ++ r.2)

/-- `ProjectUpdater.update`: platform update unless `--application`,
application updates unless `--platform`, and the rebuild step exactly when
`--no-build` was not given. -/
def projectUpdaterUpdate (env : Env) (cfgTop : Config)
    (configFolder : String) (args : UpdateArgs) : CRes × List Act :=
  let p1 : Option Unit × List Act :=
    if args.applicationOnly = false then
      updatePlatformStep env cfgTop configFolder
    else (some (), [])
  match p1 with
  | (none, a) => (CRes.exc, a)
  | (some _, a) =>
    let p2 : Option Unit × List Act :=
      if args.platformOnly = false then
        updateAppsSeq env cfgTop (applicationSections cfgTop)
      else (some (), [])
    match p2 with
    | (none, b) => (CRes.exc, a ++ b)
    | (some _, b) =>
      if args.noBuild then (CRes.ok, a ++ b)
      else
        match rebuildStep env cfgTop with
        | (none, c) => (CRes.exc, a ++ b ++ c)
        | (some _, c) => (CRes.ok, a ++ b ++ c)

/-- The components `__rebuild` is scheduled to build: the platform when
retrievable, then every configured application whose component can be
retrieved. -/
def rebuildSchedule (env : Env) (cfgTop : Config) : List String :=
  match cfgTop.get? "platform" "NAME" with
  | none => []
  | some pname =>
    (if env.getComponent (pname ++ "_platform") then
      [pname ++ "_platform"] else []) ++
    (if cfgTop.hasSection "application" then
      match cfgTop.get? "application" "NAME" with
      | none => []
      | some n => if env.getComponent n then [n] else []
     else []) ++
    ((numberedSections "application_" cfgTop).filterMap (fun s =>
      match cfgTop.get? s "NAME" with
      | none => none
      | some n => if env.getComponent n then some n else none))

theorem clientBuilds_nil : clientBuilds [] = [] := rfl

theorem clientBuilds_cons_domainConfigure (n : String) (l : List Act) :
    clientBuilds (Act.domainConfigure n :: l) = clientBuilds l := rfl

theorem clientBuilds_cons_appUpdate (n : String) (l : List Act) :
    clientBuilds (Act.appUpdate n :: l) = clientBuilds l := rfl

theorem clientBuilds_cons_clientBuild (n : String) (l : List Act) :
    clientBuilds (Act.clientBuild n :: l) = n :: clientBuilds l := rfl

theorem clientBuilds_append (a b : List Act) :
    clientBuilds (a ++ b) = clientBuilds a ++ clientBuilds b := by
  unfold clientBuilds
  rw [List.filterMap_append]

theorem clientBuilds_updateDomainsSeq (env : Env) (pc : Config)
    (l : List String) : clientBuilds (updateDomainsSeq env pc l).2 = [] := by
  induction l with
  | nil => rfl
  | cons s rest ih =>
    unfold updateDomainsSeq
    cases hn : pc.get? s "NAME" with
    | none => rfl
    | some n =>
      cases hc : pc.get? s "CONFIG" with
      | none => rfl
      | some c =>
        cases hp : pc.get? s "PROCESSOR_INSTANCE" with
        | none => rfl
        | some p =>
          dsimp only
          cases ho : env.domainConfigureOut n with
          | raises => rfl
          | ok s2 =>
            dsimp only
            rw [clientBuilds_cons_domainConfigure]
            exact ih

theorem clientBuilds_updatePlatformStep (env : Env) (cfgTop : Config)
    (folder : String) :
    clientBuilds (updatePlatformStep env cfgTop folder).2 = [] := by
  unfold updatePlatformStep
  cases hn : cfgTop.get? "platform" "NAME" with
  | none => rfl
  | some pname =>
    cases hc : cfgTop.get? "platform" "CONFIG" with
    | none => rfl
    | some pcName =>
      dsimp only
      by_cases h : env.getComponent (pname ++ "_platform") = false
      · rw [if_pos h]
        rfl
      · rw [if_neg h]
        exact clientBuilds_updateDomainsSeq env _ _

theorem clientBuilds_updateAppsSeq (env : Env) (cfgTop : Config)
    (l : List String) :
    clientBuilds (updateAppsSeq env cfgTop l).2 = [] := by
  induction l with
  | nil => rfl
  | cons s rest ih =>
    unfold updateAppsSeq
    by_cases h1 : cfgTop.hasOption s "NAME" = false
    · rw [if_pos h1]
      exact ih
    · rw [if_neg h1]
      cases hn : cfgTop.get? s "NAME" with
      | none => rfl
      | some appName =>
        cases hc : cfgTop.get? s "CONFIG" with
        | none => rfl
        | some c =>
          dsimp only
          by_cases h2 : env.pathExists (pjoin PROJECTS_PATH appName) = false
          · rw [if_pos h2]
            exact ih
          · rw [if_neg h2]
            by_cases h3 : env.appUpdateOk appName = false
            · rw [if_pos h3]
              rfl
            · rw [if_neg h3]
              rw [clientBuilds_cons_appUpdate]
              exact ih

theorem rebuildAppsSeq_complete (env : Env) (cfgTop : Config)
    (l : List String)
    (h : (rebuildAppsSeq env cfgTop l).1 = some ()) :
    clientBuilds (rebuildAppsSeq env cfgTop l).2 =
      l.filterMap (fun s =>
        match cfgTop.get? s "NAME" with
        | none => none
        | some n => if env.getComponent n then some n else none) := by
  induction l with
  | nil => rfl
  | cons s rest ih =>
    unfold rebuildAppsSeq at h
    unfold rebuildAppsSeq
    rw [List.filterMap_cons]
    by_cases h1 : cfgTop.hasOption s "NAME" = false
    · rw [if_pos h1] at h
      rw [if_pos h1]
      have hnone : cfgTop.get? s "NAME" = none := by
        unfold Config.hasOption at h1
        cases hx : cfgTop.get? s "NAME" with
        | none => rfl
        | some v =>
          rw [hx] at h1
          cases h1
      simp only [hnone]
      exact ih h
    · rw [if_neg h1] at h
      rw [if_neg h1]
      cases hx : cfgTop.get? s "NAME" with
      | none =>
        rw [hx] at h
        cases h
      | some appName =>
        try rw [hx] at h
        try dsimp only at h
        simp only [hx]
        try dsimp only
        by_cases hg : env.getComponent appName
        · try rw [if_pos hg] at h
          simp only [if_pos hg]
          cases hb : env.componentBuild appName with
          | raises =>
            try rw [hb] at h
            try dsimp only at h
            cases h
          | ok st =>
            try rw [hb] at h
            try rw [hb]
            try dsimp only at h
            try dsimp only
            rw [clientBuilds_cons_clientBuild, ih h]
        · try rw [if_neg hg] at h
          simp only [if_neg hg]
          exact ih h

theorem rebuildStep_complete (env : Env) (cfgTop : Config)
    (h : (rebuildStep env cfgTop).1 = some ()) :
    clientBuilds (rebuildStep env cfgTop).2 = rebuildSchedule env cfgTop := by
  unfold rebuildStep at h
  unfold rebuildStep rebuildSchedule
  have happs := rebuildAppsSeq_complete env cfgTop
    (numberedSections "application_" cfgTop)
  cases hp : cfgTop.get? "platform" "NAME" with
  | none =>
    rw [hp] at h
    cases h
  | some pname =>
    try rw [hp] at h
    try dsimp only at h
    try dsimp only
    by_cases hgp : env.getComponent (pname ++ "_platform")
    · try rw [if_pos hgp] at h
      rw [if_pos hgp]
      cases hbp : env.componentBuild (pname ++ "_platform") with
      | raises =>
        try rw [hbp] at h
        try dsimp only at h
        cases h
      | ok st =>
        try rw [hbp] at h
        try dsimp only at h
        try dsimp only
        by_cases hs : cfgTop.hasSection "application"
        · try rw [if_pos hs] at h
          rw [if_pos hs]
          cases hn : cfgTop.get? "application" "NAME" with
          | none =>
            try rw [hn] at h
            try dsimp only at h
            cases h
          | some appName =>
            try rw [hn] at h
            try dsimp only at h
            simp only [hn]
            by_cases hga : env.getComponent appName
            · try rw [if_pos hga] at h
              rw [if_pos hga]
              cases hba : env.componentBuild appName with
              | raises =>
                try rw [hba] at h
                try dsimp only at h
                cases h
              | ok st2 =>
                try rw [hba] at h
                try dsimp only at h
                try dsimp only
                simp [clientBuilds_append, clientBuilds_cons_clientBuild,
                  clientBuilds_nil, happs h, hgp, hs, hga, hn]
            · try rw [if_neg hga] at h
              rw [if_neg hga]
              try dsimp only at h
              try dsimp only
              simp [clientBuilds_append, clientBuilds_cons_clientBuild,
                clientBuilds_nil, happs h, hgp, hs, hga, hn]
        · try rw [if_neg hs] at h
          rw [if_neg hs]
          try dsimp only at h
          try dsimp only
          simp [clientBuilds_append, clientBuilds_cons_clientBuild,
            clientBuilds_nil, happs h, hgp, hs]
    · try rw [if_neg hgp] at h
      rw [if_neg hgp]
      try dsimp only at h
      try dsimp only
      by_cases hs : cfgTop.hasSection "application"
      · try rw [if_pos hs] at h
        rw [if_pos hs]
        cases hn : cfgTop.get? "application" "NAME" with
        | none =>
          try rw [hn] at h
          try dsimp only at h
          cases h
        | some appName =>
          try rw [hn] at h
          try dsimp only at h
          simp only [hn]
          by_cases hga : env.getComponent appName
          · try rw [if_pos hga] at h
            rw [if_pos hga]
            cases hba : env.componentBuild appName with
            | raises =>
              try rw [hba] at h
              try dsimp only at h
              cases h
            | ok st2 =>
              try rw [hba] at h
              try dsimp only at h
              try dsimp only
              simp [clientBuilds_append, clientBuilds_cons_clientBuild,
                clientBuilds_nil, happs h, hgp, hs, hga, hn]
          · try rw [if_neg hga] at h
            rw [if_neg hga]
            try dsimp only at h
            try dsimp only
            simp [clientBuilds_append, clientBuilds_cons_clientBuild,
              clientBuilds_nil, happs h, hgp, hs, hga, hn]
      · try rw [if_neg hs] at h
        rw [if_neg hs]
        try dsimp only at h
        try dsimp only
        simp [clientBuilds_append, clientBuilds_cons_clientBuild,
          clientBuilds_nil, happs h, hgp, hs]

/-- Claim C4: `ProjectUpdater.update` performs the rebuild step if and
only if `--no-build` was not given.  With the flag, the update makes no
`component.build()` call at all; without it, a completed update's build
calls are exactly the rebuild schedule — the platform component and every
configured application component that can be retrieved, in order. -/
theorem projectUpdater_rebuild_iff_noBuild (env : Env) (cfgTop : Config)
    (folder : String) (args : UpdateArgs) :
    (args.noBuild = true →
      clientBuilds (projectUpdaterUpdate env cfgTop folder args).2 = []) ∧
    (args.noBuild = false →
      (projectUpdaterUpdate env cfgTop folder args).1 = CRes.ok →
      clientBuilds (projectUpdaterUpdate env cfgTop folder args).2 =
        rebuildSchedule env cfgTop) := by
  have hA : clientBuilds (if args.applicationOnly = false then
      updatePlatformStep env cfgTop folder
    else ((some (), []) : Option Unit × List Act)).2 = [] := by
    by_cases hao : args.applicationOnly = false
    · rw [if_pos hao]
      exact clientBuilds_updatePlatformStep env cfgTop folder
    · rw [if_neg hao]
      rfl
  have hB : clientBuilds (if args.platformOnly = false then
      updateAppsSeq env cfgTop (applicationSections cfgTop)
    else ((some (), []) : Option Unit × List Act)).2 = [] := by
    by_cases hpo : args.platformOnly = false
    · rw [if_pos hpo]
      exact clientBuilds_updateAppsSeq env cfgTop _
    · rw [if_neg hpo]
      rfl
  unfold projectUpdaterUpdate
  dsimp only
  rcases hp1 : (if args.applicationOnly = false then
      updatePlatformStep env cfgTop folder
    else ((some (), []) : Option Unit × List Act)) with ⟨o1, a⟩
  rw [hp1] at hA
  cases o1 with
  | none =>
    dsimp only
    exact ⟨fun _ => hA, fun _ hok => absurd hok (by decide)⟩
  | some u1 =>
    dsimp only
    rcases hp2 : (if args.platformOnly = false then
        updateAppsSeq env cfgTop (applicationSections cfgTop)
      else ((some (), []) : Option Unit × List Act)) with ⟨o2, b⟩
    rw [hp2] at hB
    cases o2 with
    | none =>
      dsimp only
      refine ⟨fun _ => ?_, fun _ hok => absurd hok (by decide)⟩
      rw [clientBuilds_append, hA, hB]
      rfl
    | some u2 =>
      dsimp only
      by_cases hnb : args.noBuild
      · rw [if_pos hnb]
        refine ⟨fun _ => ?_, fun hf _ => absurd hnb (by rw [hf]; decide)⟩
        rw [clientBuilds_append, hA, hB]
        rfl
      · rw [if_neg hnb]
        rcases hp3 : rebuildStep env cfgTop with ⟨o3, c⟩
        cases o3 with
        | none =>
          dsimp only
          refine ⟨fun ht => absurd ht hnb, fun _ hok => absurd hok (by decide)⟩
        | some u3 =>
          dsimp only
          refine ⟨fun ht => absurd ht hnb, fun _ _ => ?_⟩
          cases u3
          have hc : clientBuilds c = rebuildSchedule env cfgTop := by
            have := rebuildStep_complete env cfgTop (by rw [hp3])
            rw [hp3] at this
            exact this
          rw [clientBuilds_append, clientBuilds_append, hA, hB, hc]
          rfl

/-- Witness for C4 at a concrete input: with `--no-build`, a completed
update performs no vendor build call. -/
theorem projectUpdater_rebuild_iff_noBuild_witness :
    clientBuilds (projectUpdaterUpdate envA Config.empty "Top"
      ⟨false, false, true⟩).2 = [] :=
  (projectUpdater_rebuild_iff_noBuild envA Config.empty "Top"
    ⟨false, false, true⟩).1 rfl


/-! ### The BUILD command wrapper (C5) -/

theorem noClient_runNinja (env : Env) (d : String) (c : Bool) :
    ∀ a ∈ (runNinjaInDirectory env d c).2, a.isClient = false := by
  unfold runNinjaInDirectory
  by_cases h : env.pathExists (pjoin d "build.ninja") = false
  · rw [if_pos h]
    intro a ha
    simp at ha
  · rw [if_neg h]
    intro a ha
    cases c
    · simp at ha
      subst ha
      rfl
    · simp at ha
      rcases ha with rfl | rfl <;> rfl

theorem noClient_buildBsps (env : Env) (pd : String) (c : Bool)
    (items : List (String × String)) :
    ∀ a ∈ (buildBsps env pd c items).2, a.isClient = false := by
  induction items with
  | nil =>
    intro a ha
    simp [buildBsps] at ha
  | cons it rest ih =>
    rcases it with ⟨dn, pr⟩
    unfold buildBsps
    by_cases h1 : env.pathExists (bspBuildDir pd pr dn) = false
    · rw [if_pos h1]
      intro a ha
      simp at ha
    · rw [if_neg h1]
      by_cases h2 : env.pathExists
          (pjoin (bspBuildDir pd pr dn) "build.ninja") = false
      · rw [if_pos h2]
        intro a ha
        simp at ha
      · rw [if_neg h2]
        by_cases h3 : (runNinjaInDirectory env (bspBuildDir pd pr dn) c).1 ≠ 0
        · rw [if_pos h3]
          exact fun a ha => noClient_runNinja env _ c a ha
        · rw [if_neg h3]
          intro a ha
          dsimp only at ha
          rcases List.mem_append.mp ha with ha | ha
          · exact noClient_runNinja env _ c a ha
          · exact ih a ha

theorem noClient_buildApps (env : Env) (c : Bool) (names : List String) :
    ∀ a ∈ (buildApps env c names).2, a.isClient = false := by
  induction names with
  | nil =>
    intro a ha
    simp [buildApps] at ha
  | cons n rest ih =>
    unfold buildApps
    by_cases h1 : env.pathExists (pjoin (pjoin PROJECTS_PATH n) "build") = false
    · rw [if_pos h1]
      intro a ha
      simp at ha
    · rw [if_neg h1]
      by_cases h3 : (runNinjaInDirectory env
          (pjoin (pjoin PROJECTS_PATH n) "build") c).1 ≠ 0
      · rw [if_pos h3]
        exact fun a ha => noClient_runNinja env _ c a ha
      · rw [if_neg h3]
        intro a ha
        dsimp only at ha
        rcases List.mem_append.mp ha with ha | ha
        · exact noClient_runNinja env _ c a ha
        · exact ih a ha

theorem noClient_buildFsbl (env : Env) (pd : String) (c hb : Bool) :
    ∀ a ∈ (buildFsbl env pd c hb).2, a.isClient = false := by
  unfold buildFsbl
  cases hb with
  | false =>
    intro a ha
    simp at ha
  | true =>
    rw [if_pos rfl]
    by_cases h1 : env.pathExists (pjoin (pjoin pd "zynq_fsbl") "build") = false
    · rw [if_pos h1]
      intro a ha
      simp at ha
    · rw [if_neg h1]
      by_cases h3 : (runNinjaInDirectory env
          (pjoin (pjoin pd "zynq_fsbl") "build") c).1 ≠ 0
      · rw [if_pos h3]
        exact fun a ha => noClient_runNinja env _ c a ha
      · rw [if_neg h3]
        exact fun a ha => noClient_runNinja env _ c a ha

theorem noClient_buildAllNinja (env : Env) (p : String) (c : Bool) :
    ∀ a ∈ (build_project_all_ninja env p c).2, a.isClient = false := by
  unfold build_project_all_ninja
  cases hninja : env.ninja with
  | none =>
    intro a ha
    simp at ha
  | some ninjaPath =>
    dsimp only
    by_cases hcf : env.pathExists (pjoin TOP_PATH p) = false
    · rw [if_pos hcf]
      intro a ha
      simp at ha
    · rw [if_neg hcf]
      by_cases hpd : env.pathExists (pjoin PROJECTS_PATH (p ++ "_platform")) = false
      · rw [if_pos hpd]
        intro a ha
        simp at ha
      · rw [if_neg hpd]
        cases hdom : collectDomains (env.readConf (pjoin TOP_PATH p) "platform") with
        | none =>
          intro a ha
          simp at ha
        | some domains =>
          dsimp only
          by_cases hemp : domains.isEmpty
          · rw [if_pos hemp]
            intro a ha
            simp at ha
          · rw [if_neg hemp]
            rcases hbsp : buildBsps env (pjoin PROJECTS_PATH (p ++ "_platform")) c domains
              with ⟨o1, bspActs⟩
            have hbspN : ∀ a ∈ bspActs, a.isClient = false := by
              intro a ha
              have := noClient_buildBsps env (pjoin PROJECTS_PATH (p ++ "_platform")) c domains a
              rw [hbsp] at this
              exact this ha
            cases o1 with
            | some code => exact hbspN
            | none =>
              dsimp only
              cases hboot : (env.readConf (pjoin TOP_PATH p)
                  "platform").getbooleanFB "boot" "BOOT_COMPONENTS" true with
              | none => exact hbspN
              | some hasBoot =>
                dsimp only
                rcases hfsbl : buildFsbl env
                    (pjoin PROJECTS_PATH (p ++ "_platform")) c hasBoot
                  with ⟨o2, fsblActs⟩
                have hfsblN : ∀ a ∈ fsblActs, a.isClient = false := by
                  intro a ha
                  have := noClient_buildFsbl env
                    (pjoin PROJECTS_PATH (p ++ "_platform")) c hasBoot a
                  rw [hfsbl] at this
                  exact this ha
                have hbothN : ∀ a ∈ bspActs ++ fsblActs, a.isClient = false := by
                  intro a ha
                  rcases List.mem_append.mp ha with ha | ha
                  · exact hbspN a ha
                  · exact hfsblN a ha
                cases o2 with
                | some code => exact hbothN
                | none =>
                  dsimp only
                  by_cases happ : (collectAppNames (env.readConf
                      (pjoin TOP_PATH p) "vitis")).isEmpty
                  · rw [if_pos happ]
                    exact hbothN
                  · rw [if_neg happ]
                    rcases happs : buildApps env c (collectAppNames
                        (env.readConf (pjoin TOP_PATH p) "vitis"))
                      with ⟨o3, appActs⟩
                    have happN : ∀ a ∈ appActs, a.isClient = false := by
                      intro a ha
                      have := noClient_buildApps env c (collectAppNames
                        (env.readConf (pjoin TOP_PATH p) "vitis")) a
                      rw [happs] at this
                      exact this ha
                    have hallN : ∀ a ∈ bspActs ++ fsblActs ++ appActs,
                        a.isClient = false := by
                      intro a ha
                      rcases List.mem_append.mp ha with ha | ha
                      · exact hbothN a ha
                      · exact happN a ha
                    cases o3 with
                    | some code => exact hallN
                    | none => exact hallN

/-- `activate_project` (abstracted: its `.clangd` / compile-database file
work never touches the vendor client; only its success flag matters to the
wrapper). -/
def activate_project (env : Env) (name : String) : Bool × List Act :=
  (env.activateOk name, [Act.activateRun name])

/-- `vitis_build.build_project_ninja`: the single-application direct ninja
build — existence checks, `find_ninja_executable`, optional tolerated
clean, then ninja in the project's `build` directory. -/
def build_project_ninja (env : Env) (name : String) (clean : Bool) :
    Int × List Act :=
  let projectDir := pjoin PROJECTS_PATH name
  let buildDir := pjoin projectDir "build"
  if env.pathExists projectDir = false then (1, [])
  else if env.pathExists buildDir = false then (1, [])
  else if env.pathExists (pjoin buildDir "CMakeCache.txt") = false then (1, [])
  else
    match env.ninja with
    | none => (1, [])
    | some _ =>
      let cleanActs : List Act :=
        if clean then [Act.ninjaClean buildDir (env.runClean buildDir)] else []
      (env.runBuild buildDir, cleanActs ++ [Act.ninjaBuild buildDir])

/-- `vitis_build.build_project_vitis`: the vendor-server build of one
component: `client.get_component(name)` then `.build()`; every exception
(including `client` being `None`) is caught and returns 1. -/
def build_project_vitis (env : Env) (client : Bool) (name : String) :
    Int × List Act :=
  if env.pathExists (pjoin PROJECTS_PATH name) = false then (1, [])
  else if client = false then (1, [])
  else if env.getComponent name = false then (1, [Act.clientGet name])
  else
    match env.componentBuild name with
    | .raises => (1, [Act.clientGet name, Act.clientBuild name])
    | .ok s => ((if s = 0 then 0 else 1),
        [Act.clientGet name, Act.clientBuild name])

/-- `vitis_build.build_project_all`: constructs a `ProjectBuilder` (whose
config parsing and component constructors may raise, caught → 1) and runs
its `build()`. -/
def build_project_all (env : Env) (cfgTop platformConf : Config)
    (projectName : String) : Int × List Act :=
  if env.pathExists (pjoin TOP_PATH projectName) = false then (1, [])
  else
    match cfgTop.get? "platform" "NAME", cfgTop.get? "platform" "DESCRIPTION",
        cfgTop.get? "platform" "CONFIG" with
    | some pname, some _, some _ =>
      match platformCtorDomains platformConf with
      | none => (1, [])
      | some _ =>
        if (loadedAppNames cfgTop).all env.appCtorOk = false then (1, [])
        else projectBuilderBuild env (pname ++ "_platform")
          (loadedAppNames cfgTop)
    | _, _, _ => (1, [])

/-- The BUILD command's arguments (`--tools`, `--all`, `--clean`,
`--no-activate`). -/
structure BuildArgs where
  name : String
  tools : String
  all : Bool
  clean : Bool
  activate : Bool

/-- Wrapper outcome: `sys.exit(code)`, a normal return, or an uncaught
exception. -/
inductive WRes where
  | exited (code : Int)
  | returned
  | raised
deriving DecidableEq

/-- `launch.build_project_wrapper`: routes to the ninja or vendor build,
for the whole project (`--all`) or a single application, then optionally
activates. -/
def build_project_wrapper (env : Env) (client : Bool)
    (cfgTop platformConf : Config) (args : BuildArgs) : WRes × List Act :=
  if args.all then
    match (if args.tools = "ninja" then
        build_project_all_ninja env args.name args.clean
      else if client = false then (BRes.exit 1, [])
      else
        let r := build_project_all env cfgTop platformConf args.name
        (BRes.exit r.1, r.2)) with
    | (BRes.exc, acts) => (WRes.raised, acts)
    | (BRes.exit code, acts) =>
      if code = 0 ∧ args.activate then
        let a := activate_project env args.name
        (WRes.exited (if a.1 then 0 else 1), acts ++ a.2)
      else (WRes.exited code, acts)
  else
    match (if args.tools = "ninja" then
        build_project_ninja env args.name args.clean
      else build_project_vitis env client args.name) with
    | (code, acts) =>
      let acts2 := if code = 0 ∧ args.activate then
          acts ++ (activate_project env args.name).2
        else acts
      if code ≠ 0 then (WRes.exited code, acts2) else (WRes.returned, acts2)

/-- Is the action a direct ninja invocation? -/
def Act.isNinja : Act → Bool
  | .ninjaClean _ _ => true
  | .ninjaBuild _ => true
  | _ => false

theorem noClient_build_project_ninja (env : Env) (name : String)
    (clean : Bool) :
    ∀ a ∈ (build_project_ninja env name clean).2, a.isClient = false := by
  unfold build_project_ninja
  dsimp only
  by_cases h1 : env.pathExists (pjoin PROJECTS_PATH name) = false
  · rw [if_pos h1]
    intro a ha
    simp at ha
  · rw [if_neg h1]
    by_cases h2 : env.pathExists (pjoin (pjoin PROJECTS_PATH name) "build") = false
    · rw [if_pos h2]
      intro a ha
      simp at ha
    · rw [if_neg h2]
      by_cases h3 : env.pathExists (pjoin (pjoin (pjoin PROJECTS_PATH name)
          "build") "CMakeCache.txt") = false
      · rw [if_pos h3]
        intro a ha
        simp at ha
      · rw [if_neg h3]
        cases env.ninja with
        | none =>
          intro a ha
          simp at ha
        | some np =>
          intro a ha
          cases clean
          · simp at ha
            subst ha
            rfl
          · simp at ha
            rcases ha with rfl | rfl <;> rfl

theorem build_project_ninja_run (env : Env) (name : String) (clean : Bool)
    (np : String)
    (h1 : env.pathExists (pjoin PROJECTS_PATH name) = true)
    (h2 : env.pathExists (pjoin (pjoin PROJECTS_PATH name) "build") = true)
    (h3 : env.pathExists (pjoin (pjoin (pjoin PROJECTS_PATH name) "build")
      "CMakeCache.txt") = true)
    (hn : env.ninja = some np) :
    build_project_ninja env name clean =
      (env.runBuild (pjoin (pjoin PROJECTS_PATH name) "build"),
        (if clean then [Act.ninjaClean (pjoin (pjoin PROJECTS_PATH name)
            "build") (env.runClean (pjoin (pjoin PROJECTS_PATH name) "build"))]
          else []) ++
          [Act.ninjaBuild (pjoin (pjoin PROJECTS_PATH name) "build")]) := by
  unfold build_project_ninja
  dsimp only
  rw [h1, h2, h3, hn]
  rfl

/-- Claim C5: the BUILD command builds through the vendor server when
`--tools` is `vitis` and directly through ninja when `--tools` is
`ninja`; the ninja path never touches the vendor client.  With
`tools = "ninja"` the wrapper's behaviour is identical whatever the
client argument is (in particular for `None`), and its trace holds no
vendor-client action; on the single-application ninja path (all checks
passing) ninja runs in the project's `build` directory; on the
single-application vitis path the trace is exactly
`client.get_component(name)` followed by `component.build()` (plus the
optional activation), with no direct ninja invocation. -/
theorem buildWrapper_tools_routing (env : Env) (client : Bool)
    (cfgTop platformConf : Config) (args : BuildArgs) :
    (args.tools = "ninja" →
      build_project_wrapper env client cfgTop platformConf args =
        build_project_wrapper env true cfgTop platformConf args) ∧
    (args.tools = "ninja" →
      ∀ a ∈ (build_project_wrapper env client cfgTop platformConf args).2,
        a.isClient = false) ∧
    (args.all = false → args.tools = "ninja" →
      env.pathExists (pjoin PROJECTS_PATH args.name) = true →
      env.pathExists (pjoin (pjoin PROJECTS_PATH args.name) "build") = true →
      env.pathExists (pjoin (pjoin (pjoin PROJECTS_PATH args.name) "build")
        "CMakeCache.txt") = true →
      (∀ np, env.ninja = some np →
        Act.ninjaBuild (pjoin (pjoin PROJECTS_PATH args.name) "build") ∈
          (build_project_wrapper env client cfgTop platformConf args).2)) ∧
    (args.all = false → args.tools = "vitis" → client = true →
      env.pathExists (pjoin PROJECTS_PATH args.name) = true →
      env.getComponent args.name = true →
      ∀ s, env.componentBuild args.name = VOutcome.ok s →
        Act.clientGet args.name ∈
          (build_project_wrapper env client cfgTop platformConf args).2 ∧
        Act.clientBuild args.name ∈
          (build_project_wrapper env client cfgTop platformConf args).2 ∧
        ∀ a ∈ (build_project_wrapper env client cfgTop platformConf args).2,
          a.isNinja = false) := by
  refine ⟨?_, ?_, ?_, ?_⟩
  · intro htools
    unfold build_project_wrapper
    by_cases hall : args.all
    · rw [if_pos hall, if_pos hall, if_pos htools, if_pos htools]
    · rw [if_neg hall, if_neg hall, if_pos htools, if_pos htools]
  · intro htools a ha
    unfold build_project_wrapper at ha
    by_cases hall : args.all
    · rw [if_pos hall, if_pos htools] at ha
      rcases hres : build_project_all_ninja env args.name args.clean
        with ⟨r, acts⟩
      rw [hres] at ha
      have hN : ∀ x ∈ acts, Act.isClient x = false := by
        intro x hx
        have := noClient_buildAllNinja env args.name args.clean x
        rw [hres] at this
        exact this hx
      cases r with
      | exc => exact hN a ha
      | exit code =>
        dsimp only at ha
        by_cases hc : code = 0 ∧ args.activate = true
        · rw [if_pos hc] at ha
          dsimp only at ha
          rcases List.mem_append.mp ha with ha | ha
          · exact hN a ha
          · simp [activate_project] at ha
            subst ha
            rfl
        · rw [if_neg hc] at ha
          exact hN a ha
    · rw [if_neg hall, if_pos htools] at ha
      rcases hres : build_project_ninja env args.name args.clean
        with ⟨code, acts⟩
      rw [hres] at ha
      dsimp only at ha
      have hN : ∀ x ∈ acts, Act.isClient x = false := by
        intro x hx
        have := noClient_build_project_ninja env args.name args.clean x
        rw [hres] at this
        exact this hx
      by_cases hc : code = 0 ∧ args.activate = true
      · rw [if_pos hc] at ha
        have hmem : a ∈ acts ++ (activate_project env args.name).2 := by
          by_cases hz : code ≠ 0
          · rw [if_pos hz] at ha
            exact ha
          · rw [if_neg hz] at ha
            exact ha
        rcases List.mem_append.mp hmem with hm | hm
        · exact hN a hm
        · simp [activate_project] at hm
          subst hm
          rfl
      · rw [if_neg hc] at ha
        by_cases hz : code ≠ 0
        · rw [if_pos hz] at ha
          exact hN a ha
        · rw [if_neg hz] at ha
          exact hN a ha
  · intro hall htools h1 h2 h3 np hn
    unfold build_project_wrapper
    rw [hall]
    rw [if_neg (by decide : ¬ (false = true)), if_pos htools]
    rw [build_project_ninja_run env args.name args.clean np h1 h2 h3 hn]
    dsimp only
    by_cases hc : env.runBuild (pjoin (pjoin PROJECTS_PATH args.name)
        "build") = 0 ∧ args.activate = true
    · rw [if_pos hc]
      by_cases hz : env.runBuild (pjoin (pjoin PROJECTS_PATH args.name)
          "build") ≠ 0
      · rw [if_pos hz]
        cases args.clean <;> simp
      · rw [if_neg hz]
        cases args.clean <;> simp
    · rw [if_neg hc]
      by_cases hz : env.runBuild (pjoin (pjoin PROJECTS_PATH args.name)
          "build") ≠ 0
      · rw [if_pos hz]
        cases args.clean <;> simp
      · rw [if_neg hz]
        cases args.clean <;> simp
  · intro hall htools hclient h1 hg s hb
    have htn : ¬ (args.tools = "ninja") := by
      rw [htools]
      decide
    have hvit : build_project_vitis env client args.name =
        ((if s = 0 then 0 else 1),
          [Act.clientGet args.name, Act.clientBuild args.name]) := by
      unfold build_project_vitis
      rw [h1, hclient, hg, hb]
      rfl
    unfold build_project_wrapper
    rw [hall]
    rw [if_neg (by decide : ¬ (false = true)), if_neg htn, hvit]
    dsimp only
    constructor
    case left =>
      by_cases hc : (if s = 0 then (0 : Int) else 1) = 0 ∧ args.activate = true
      · rw [if_pos hc]
        by_cases hz : (if s = 0 then (0 : Int) else 1) ≠ 0
        · rw [if_pos hz]
          simp
        · rw [if_neg hz]
          simp
      · rw [if_neg hc]
        by_cases hz : (if s = 0 then (0 : Int) else 1) ≠ 0
        · rw [if_pos hz]
          simp
        · rw [if_neg hz]
          simp
    constructor
    · by_cases hc : (if s = 0 then (0 : Int) else 1) = 0 ∧ args.activate = true
      · rw [if_pos hc]
        by_cases hz : (if s = 0 then (0 : Int) else 1) ≠ 0
        · rw [if_pos hz]
          simp
        · rw [if_neg hz]
          simp
      · rw [if_neg hc]
        by_cases hz : (if s = 0 then (0 : Int) else 1) ≠ 0
        · rw [if_pos hz]
          simp
        · rw [if_neg hz]
          simp
    · intro a ha
      by_cases hc : (if s = 0 then (0 : Int) else 1) = 0 ∧ args.activate = true
      · rw [if_pos hc] at ha
        have hmem : a ∈ [Act.clientGet args.name, Act.clientBuild args.name]
            ++ (activate_project env args.name).2 := by
          by_cases hz : (if s = 0 then (0 : Int) else 1) ≠ 0
          · rw [if_pos hz] at ha
            exact ha
          · rw [if_neg hz] at ha
            exact ha
        simp [activate_project] at hmem
        rcases hmem with rfl | rfl | rfl <;> rfl
      · rw [if_neg hc] at ha
        have hmem : a ∈ [Act.clientGet args.name, Act.clientBuild args.name] := by
          by_cases hz : (if s = 0 then (0 : Int) else 1) ≠ 0
          · rw [if_pos hz] at ha
            exact ha
          · rw [if_neg hz] at ha
            exact ha
        simp at hmem
        rcases hmem with rfl | rfl <;> rfl

/-- Witness for C5: with `--tools ninja` on a single application and all
checks passing, the wrapper's behaviour is the same with or without a
vendor client, and ninja runs in the project's build directory. -/
theorem buildWrapper_tools_routing_witness :
    build_project_wrapper envA false Config.empty Config.empty
        ⟨"demo", "ninja", false, false, false⟩ =
      build_project_wrapper envA true Config.empty Config.empty
        ⟨"demo", "ninja", false, false, false⟩ :=
  (buildWrapper_tools_routing envA false Config.empty Config.empty
    ⟨"demo", "ninja", false, false, false⟩).1 rfl

/-! ### File-system model for source reconciliation (C2, C7)

`ApplicationUpdater` manipulates the entries of the project's `src`
directory through `os` calls.  The model: a `World` classifies every path
outside the directory (symlink targets, configured sources), and the
directory itself is an association list from entry name to entry.  The
POSIX branch of `_create_symlink` / `_create_folder_symlink` is modelled;
the claims' precondition "all filesystem operations succeed" is built in
(`os.remove`/`shutil.rmtree`/`os.symlink` never fail in the model). -/

/-- What a path outside the src directory names. -/
inductive PathKind where
  | missing
  | file
  | dir
deriving DecidableEq

/-- Classification of every target path (`os.path` follows symlinks
through it). -/
def World := String → PathKind

/-- One entry of the src directory. -/
inductive Entry where
  | realFile
  | link (target : String)
  | realDir (hasSources : Bool)
deriving DecidableEq

/-- The src directory: entries in listing order, names distinct in every
state the code produces. -/
abbrev SrcDir := List (String × Entry)

/-- `os.path.islink`. -/
def entryIsLink : Entry → Bool
  | .link _ => true
  | _ => false

/-- `os.path.isfile` (follows the link). -/
def entryIsFile (w : World) : Entry → Bool
  | .realFile => true
  | .realDir _ => false
  | .link t => w t = PathKind.file

/-- `os.path.isdir` (follows the link). -/
def entryIsDir (w : World) : Entry → Bool
  | .realFile => false
  | .realDir _ => true
  | .link t => w t = PathKind.dir

/-- Entry at a name (first match in listing order). -/
def lookupEntry : SrcDir → String → Option Entry
  | [], _ => none
  | p :: rest, n => if p.1 = n then some p.2 else lookupEntry rest n

/-- Removal of an entry (`os.remove` / `shutil.rmtree`, succeeding). -/
def eraseEntry : SrcDir → String → SrcDir
  | [], _ => []
  | p :: rest, n => if p.1 = n then eraseEntry rest n else p :: eraseEntry rest n

/-- The file-detector condition of `__get_current_file_symlinks`:
a file, or a symlink that is not a directory. -/
def fileLike (w : World) (e : Entry) : Bool :=
  entryIsFile w e || (entryIsLink e && !(entryIsDir w e))

/-- The folder-detector condition of `__get_current_folder_symlinks`:
a directory symlink, or a real directory whose walk finds sources. -/
def folderLike (w : World) (e : Entry) : Bool :=
  (entryIsLink e && entryIsDir w e) ||
    (match e with
     | Entry.realDir hs => hs
     | _ => false)

/-- The extensions `__get_current_file_symlinks` keeps. -/
def hasSourceExt (n : String) : Bool :=
  endsWithAny [".c", ".S", ".h"] n

/-- The directories `__get_current_folder_symlinks` ignores. -/
def ignoreDirs : List String :=
  [".cache", ".compile_commands", "linker_files", "build"]

/-- `__get_current_file_symlinks`: the names it collects. -/
def currentFileNames (w : World) (d : SrcDir) : List String :=
  (d.filter (fun p => fileLike w p.2 && hasSourceExt p.1)).map (fun p => p.1)

/-- `__get_current_folder_symlinks`: the names it collects. -/
def currentFolderNames (w : World) (d : SrcDir) : List String :=
  (d.filter (fun p =>
    !(ignoreDirs.contains p.1) && folderLike w p.2)).map (fun p => p.1)

/-- `_parse_multiline_paths`. -/
def parseMultilinePaths (v : String) : List String :=
  ((splitOnChar ',' (replaceChar '\n' ',' v).data).map
    (fun l => strip (String.mk l))).filter (fun s => ¬ (s = ""))

/-- One step of building a Python dict: a later value overwrites, the
first occurrence keeps its position. -/
def dictInsert (m : List (String × String)) (k v : String) :
    List (String × String) :=
  if m.any (fun p => p.1 = k) then
    m.map (fun p => if p.1 = k then (k, v) else p)
  else m ++ [(k, v)]

/-- The dict comprehension over a pair list, in insertion order. -/
def dictOfPairs (l : List (String × String)) : List (String × String) :=
  l.foldl (fun m p => dictInsert m p.1 p.2) []

/-- `k in dict`. -/
def dictHas (m : List (String × String)) (k : String) : Bool :=
  m.any (fun p => p.1 = k)

/-- `dict.get(k)`. -/
def dictFind (m : List (String × String)) (k : String) : Option String :=
  (m.find? (fun p => p.1 = k)).map (fun p => p.2)

/-- `_create_symlink` (POSIX): skip when the link name is present (any
present entry passes the `exists or islink` test), silently fail when the
source is missing, else create the symlink. -/
def createSymlink (w : World) (d : SrcDir) (src n : String) : SrcDir :=
  if (lookupEntry d n).isSome then d
  else if w src = PathKind.missing then d
  else d ++ [(n, Entry.link src)]

/-- `_create_folder_symlink` (POSIX): skip when present, fail when the
source does not exist or is not a directory, else create the directory
symlink. -/
def createFolderSymlink (w : World) (d : SrcDir) (src n : String) : SrcDir :=
  if (lookupEntry d n).isSome then d
  else if ¬ (w src = PathKind.dir) then d
  else d ++ [(n, Entry.link src)]

/-- The desired dict a reconciliation phase computes from one config
option: `{basename(expand(p)): expand(p)}` over the parsed paths (empty
when the option is missing or blank, in which case the phase is a no-op). -/
def desiredPairs (expand : String → String) (cfg : Config) (sec opt : String) :
    List (String × String) :=
  match cfg.get? sec opt with
  | none => []
  | some raw =>
    if strip raw = "" then []
    else
      dictOfPairs (((parseMultilinePaths (strip raw)).map expand).map
        (fun s => (basename s, s)))

/-- `ApplicationUpdater.__update_source_files`. -/
def updateSourceFiles (w : World) (expand : String → String) (cfg : Config)
    (d : SrcDir) : SrcDir :=
  match cfg.get? "compiler" "source_files" with
  | none => d
  | some raw =>
    if strip raw = "" then d
    else
      let expanded := (parseMultilinePaths (strip raw)).map expand
      let current := currentFileNames w d
      let desired := dictOfPairs (expanded.map (fun s => (basename s, s)))
      let d1 := current.foldl
        (fun acc n => if dictHas desired n then acc else eraseEntry acc n) d
      desired.foldl
        (fun acc p =>
          if (lookupEntry acc p.1).isSome then acc
          else createSymlink w acc p.2 p.1) d1

/-- `ApplicationUpdater.__update_source_folders`.  The creation guard
tests membership in the folder dict collected BEFORE the removals, not
the file system. -/
def updateSourceFolders (w : World) (expand : String → String) (cfg : Config)
    (d : SrcDir) : SrcDir :=
  match cfg.get? "compiler" "source_folders" with
  | none => d
  | some raw =>
    if strip raw = "" then d
    else
      let expanded := (parseMultilinePaths (strip raw)).map expand
      let current := currentFolderNames w d
      let desired := dictOfPairs (expanded.map (fun f => (basename f, f)))
      let d1 := current.foldl
        (fun acc n => if dictHas desired n then acc else eraseEntry acc n) d
      desired.foldl
        (fun acc p =>
          if current.contains p.1 then acc
          else createFolderSymlink w acc p.2 p.1) d1

/-- `ApplicationUpdater.__update_linker_script`: remove any `lscript.ld`
entry, then symlink the configured script. -/
def updateLinkerScript (w : World) (expand : String → String) (cfg : Config)
    (d : SrcDir) : SrcDir :=
  match cfg.get? "linker" "linker_script" with
  | none => d
  | some raw =>
    if strip raw = "" then d
    else
      let expanded := expand (strip raw)
      let d1 := if (lookupEntry d "lscript.ld").isSome then
          eraseEntry d "lscript.ld"
        else d
      createSymlink w d1 expanded "lscript.ld"

/-- The source-file / source-folder reconciliation of
`ApplicationUpdater.update` (the two phases in execution order). -/
def reconcileSources (w : World) (expand : String → String) (cfg : Config)
    (d : SrcDir) : SrcDir :=
  updateSourceFolders w expand cfg (updateSourceFiles w expand cfg d)

/-- The names the code itself classifies as source entries of the src
directory. -/
def sourceEntryNames (w : World) (d : SrcDir) : List String :=
  currentFileNames w d ++ currentFolderNames w d


/-! ### Pointwise lemmas for the src-directory operations -/

/-- Names-distinctness invariant of the src directory (`os.listdir` never
shows a name twice). -/
def NodupKeys (d : SrcDir) : Prop := (d.map (fun p => p.1)).Nodup

theorem lookupEntry_erase (d : SrcDir) (n m : String) :
    lookupEntry (eraseEntry d n) m =
      if m = n then none else lookupEntry d m := by
  induction d with
  | nil =>
    by_cases h : m = n <;> simp [eraseEntry, lookupEntry, h]
  | cons p rest ih =>
    by_cases hpn : p.1 = n
    · have he : eraseEntry (p :: rest) n = eraseEntry rest n := by
        rw [eraseEntry, if_pos hpn]
      rw [he, ih]
      by_cases hmn : m = n
      · rw [if_pos hmn, if_pos hmn]
      · have hpm : ¬ (p.1 = m) := fun hpm => hmn (by rw [← hpm]; exact hpn)
        rw [if_neg hmn, if_neg hmn, lookupEntry, if_neg hpm]
    · have he : eraseEntry (p :: rest) n = p :: eraseEntry rest n := by
        rw [eraseEntry, if_neg hpn]
      rw [he, lookupEntry, lookupEntry]
      by_cases hpm : p.1 = m
      · have hmn : ¬ (m = n) := fun hmn => hpn (by rw [hpm]; exact hmn)
        rw [if_pos hpm, if_neg hmn, if_pos hpm]
      · rw [if_neg hpm, ih, if_neg hpm]

theorem lookupEntry_append (d : SrcDir) (k : String) (e : Entry) (m : String) :
    lookupEntry (d ++ [(k, e)]) m =
      match lookupEntry d m with
      | some x => some x
      | none => if k = m then some e else none := by
  induction d with
  | nil =>
    by_cases h : k = m <;> simp [lookupEntry, h]
  | cons p rest ih =>
    by_cases hpm : p.1 = m <;> simp [lookupEntry, hpm, ih]

theorem lookupEntry_eq_none_iff {d : SrcDir} {n : String} :
    lookupEntry d n = none ↔ n ∉ d.map (fun p => p.1) := by
  induction d with
  | nil => simp [lookupEntry]
  | cons p rest ih =>
    by_cases hpn : p.1 = n
    · simp [lookupEntry, hpn]
    · rw [lookupEntry, if_neg hpn, ih, List.map_cons]
      constructor
      · intro h hmem
        rcases List.mem_cons.mp hmem with he | hmem2
        · exact hpn he.symm
        · exact h hmem2
      · intro h hmem
        exact h (List.mem_cons_of_mem _ hmem)

theorem lookupEntry_mem {d : SrcDir} {n : String} {e : Entry}
    (h : lookupEntry d n = some e) : (n, e) ∈ d := by
  induction d with
  | nil => cases h
  | cons p rest ih =>
    by_cases hpn : p.1 = n
    · rw [lookupEntry, if_pos hpn] at h
      cases h
      have he : (n, p.2) = p := by rw [← hpn]
      rw [he]
      exact List.mem_cons_self p rest
    · rw [lookupEntry, if_neg hpn] at h
      exact List.mem_cons_of_mem p (ih h)

theorem lookupEntry_of_mem {d : SrcDir} {p : String × Entry}
    (hnd : NodupKeys d) (hmem : p ∈ d) : lookupEntry d p.1 = some p.2 := by
  induction d with
  | nil => cases hmem
  | cons q rest ih =>
    rcases hnd with - | ⟨hq, hrest⟩
    rcases List.mem_cons.mp hmem with rfl | hmem
    · rw [lookupEntry, if_pos rfl]
    · have hqp : ¬ (q.1 = p.1) := by
        intro he
        exact (hq p.1 (List.mem_map.mpr ⟨p, hmem, rfl⟩)) he
      rw [lookupEntry, if_neg hqp]
      exact ih hrest hmem

theorem mem_currentFileNames {w : World} {d : SrcDir} {n : String}
    (hnd : NodupKeys d) :
    n ∈ currentFileNames w d ↔
      ∃ e, lookupEntry d n = some e ∧ fileLike w e = true ∧
        hasSourceExt n = true := by
  unfold currentFileNames
  constructor
  · intro h
    rcases List.mem_map.mp h with ⟨p, hp, rfl⟩
    rcases List.mem_filter.mp hp with ⟨hmem, hcond⟩
    rw [Bool.and_eq_true] at hcond
    rcases hcond with ⟨h1, h2⟩
    exact ⟨p.2, lookupEntry_of_mem hnd hmem, h1, h2⟩
  · rintro ⟨e, hl, h1, h2⟩
    refine List.mem_map.mpr ⟨(n, e), ?_, rfl⟩
    refine List.mem_filter.mpr ⟨lookupEntry_mem hl, ?_⟩
    rw [Bool.and_eq_true]
    exact ⟨h1, h2⟩

theorem mem_currentFolderNames {w : World} {d : SrcDir} {n : String}
    (hnd : NodupKeys d) :
    n ∈ currentFolderNames w d ↔
      ∃ e, lookupEntry d n = some e ∧ (ignoreDirs.contains n) = false ∧
        folderLike w e = true := by
  unfold currentFolderNames
  constructor
  · intro h
    rcases List.mem_map.mp h with ⟨p, hp, rfl⟩
    rcases List.mem_filter.mp hp with ⟨hmem, hcond⟩
    rw [Bool.and_eq_true] at hcond
    rcases hcond with ⟨h1, h2⟩
    refine ⟨p.2, lookupEntry_of_mem hnd hmem, ?_, h2⟩
    rwa [Bool.not_eq_true'] at h1
  · rintro ⟨e, hl, h1, h2⟩
    refine List.mem_map.mpr ⟨(n, e), ?_, rfl⟩
    refine List.mem_filter.mpr ⟨lookupEntry_mem hl, ?_⟩
    rw [Bool.and_eq_true]
    refine ⟨?_, h2⟩
    rwa [Bool.not_eq_true']

theorem keys_erase_sublist (d : SrcDir) (n : String) :
    List.Sublist ((eraseEntry d n).map (fun p => p.1))
      (d.map (fun p => p.1)) := by
  induction d with
  | nil => simp [eraseEntry]
  | cons p rest ih =>
    by_cases hpn : p.1 = n
    · rw [eraseEntry, if_pos hpn]
      exact ih.trans (List.sublist_cons_self _ _)
    · rw [eraseEntry, if_neg hpn]
      simpa using List.Sublist.cons₂ p.1 ih

theorem nodupKeys_erase {d : SrcDir} (n : String) (h : NodupKeys d) :
    NodupKeys (eraseEntry d n) :=
  List.Nodup.sublist (keys_erase_sublist d n) h

theorem nodupKeys_append {d : SrcDir} {k : String} (e : Entry)
    (h : NodupKeys d) (habs : lookupEntry d k = none) :
    NodupKeys (d ++ [(k, e)]) := by
  unfold NodupKeys
  rw [List.map_append]
  refine List.Nodup.append h (by simp) ?_
  intro x hx hy
  simp at hy
  subst hy
  exact lookupEntry_eq_none_iff.mp habs hx


theorem dictFind_cons (k v m : String) (rest : List (String × String)) :
    dictFind ((k, v) :: rest) m = if k = m then some v else dictFind rest m := by
  by_cases h : k = m <;> simp [dictFind, List.find?, h]

theorem dictFind_eq_none_of_not_mem {m : List (String × String)} {k : String}
    (h : k ∉ m.map (fun p => p.1)) : dictFind m k = none := by
  induction m with
  | nil => rfl
  | cons q rest ih =>
    rw [List.map_cons] at h
    have hqk : ¬ (q.1 = k) := fun he => h (he ▸ List.mem_cons_self q.1 _)
    have hrest : k ∉ rest.map (fun p => p.1) :=
      fun hm => h (List.mem_cons_of_mem _ hm)
    rcases q with ⟨qk, qv⟩
    rw [dictFind_cons, if_neg hqk]
    exact ih hrest

theorem dictHas_iff {m : List (String × String)} {k : String} :
    dictHas m k = true ↔ k ∈ m.map (fun p => p.1) := by
  unfold dictHas
  rw [List.any_eq_true]
  constructor
  · rintro ⟨p, hp, he⟩
    simp at he
    exact List.mem_map.mpr ⟨p, hp, he⟩
  · intro h
    rcases List.mem_map.mp h with ⟨p, hp, he⟩
    exact ⟨p, hp, by simp [he]⟩

theorem keys_dictInsert (m : List (String × String)) (k v : String) :
    (dictInsert m k v).map (fun p => p.1) =
      if m.any (fun p => p.1 = k) then m.map (fun p => p.1)
      else m.map (fun p => p.1) ++ [k] := by
  unfold dictInsert
  by_cases h : m.any (fun p => p.1 = k)
  · rw [if_pos h, if_pos h, List.map_map]
    congr 1
    funext p
    by_cases hpk : p.1 = k
    · simp [hpk]
    · simp [hpk]
  · rw [if_neg h, if_neg h, List.map_append]
    rfl

theorem nodup_keys_dictInsert {m : List (String × String)} (k v : String)
    (h : (m.map (fun p => p.1)).Nodup) :
    ((dictInsert m k v).map (fun p => p.1)).Nodup := by
  rw [keys_dictInsert]
  by_cases hmem : m.any (fun p => p.1 = k)
  · rw [if_pos hmem]
    exact h
  · rw [if_neg hmem]
    refine List.Nodup.append h (by simp) ?_
    intro x hx hy
    simp at hy
    subst hy
    rcases List.mem_map.mp hx with ⟨p, hp, hpk⟩
    exact hmem (List.any_eq_true.mpr ⟨p, hp, by simp [hpk]⟩)

theorem nodupKeys_dictOfPairs (l : List (String × String)) :
    ((dictOfPairs l).map (fun p => p.1)).Nodup := by
  unfold dictOfPairs
  suffices h : ∀ m : List (String × String), (m.map (fun p => p.1)).Nodup →
      ((l.foldl (fun m p => dictInsert m p.1 p.2) m).map
        (fun p => p.1)).Nodup by
    exact h [] (by simp)
  induction l with
  | nil => exact fun m hm => hm
  | cons q rest ih =>
    intro m hm
    rw [List.foldl_cons]
    exact ih _ (nodup_keys_dictInsert q.1 q.2 hm)

theorem lookupEntry_createSymlink (w : World) (d : SrcDir) (src n m : String) :
    lookupEntry (createSymlink w d src n) m =
      if m = n ∧ lookupEntry d n = none ∧ ¬ (w src = PathKind.missing) then
        some (Entry.link src)
      else lookupEntry d m := by
  unfold createSymlink
  by_cases hp : (lookupEntry d n).isSome
  · rw [if_pos hp]
    rw [if_neg (fun hc => by rw [hc.2.1] at hp; cases hp)]
  · rw [if_neg hp]
    have hnone : lookupEntry d n = none := Option.not_isSome_iff_eq_none.mp hp
    by_cases hmiss : w src = PathKind.missing
    · rw [if_pos hmiss, if_neg (fun hc => hc.2.2 hmiss)]
    · rw [if_neg hmiss, lookupEntry_append]
      by_cases hmn : m = n
      · subst hmn
        rw [hnone]
        simp [hmiss]
      · cases hl : lookupEntry d m with
        | some e => exact (if_neg (fun hc => hmn hc.1)).symm
        | none =>
          rw [if_neg (show ¬ n = m from fun he => hmn he.symm)]
          rw [if_neg (fun hc => hmn hc.1)]

theorem lookupEntry_createFolderSymlink (w : World) (d : SrcDir)
    (src n m : String) :
    lookupEntry (createFolderSymlink w d src n) m =
      if m = n ∧ lookupEntry d n = none ∧ w src = PathKind.dir then
        some (Entry.link src)
      else lookupEntry d m := by
  unfold createFolderSymlink
  by_cases hp : (lookupEntry d n).isSome
  · rw [if_pos hp]
    rw [if_neg (fun hc => by rw [hc.2.1] at hp; cases hp)]
  · rw [if_neg hp]
    have hnone : lookupEntry d n = none := Option.not_isSome_iff_eq_none.mp hp
    by_cases hdir : w src = PathKind.dir
    · rw [if_neg (by rw [hdir]; exact fun hc => hc rfl), lookupEntry_append]
      by_cases hmn : m = n
      · subst hmn
        rw [hnone]
        simp [hdir]
      · cases hl : lookupEntry d m with
        | some e => exact (if_neg (fun hc => hmn hc.1)).symm
        | none =>
          rw [if_neg (show ¬ n = m from fun he => hmn he.symm)]
          rw [if_neg (fun hc => hmn hc.1)]
    · rw [if_pos (by exact fun hc => hdir hc), if_neg (fun hc => hdir hc.2.2)]

theorem lookup_rmFold (desired : List (String × String))
    (current : List String) (d : SrcDir) (m : String) :
    lookupEntry (current.foldl
        (fun acc n => if dictHas desired n then acc else eraseEntry acc n)
        d) m =
      if m ∈ current ∧ dictHas desired m = false then none
      else lookupEntry d m := by
  induction current generalizing d with
  | nil => simp
  | cons x xs ih =>
    rw [List.foldl_cons]
    by_cases hdx : dictHas desired x
    · rw [if_pos hdx, ih]
      by_cases hdm : dictHas desired m = false
      · by_cases hmxs : m ∈ xs
        · rw [if_pos ⟨hmxs, hdm⟩, if_pos ⟨List.mem_cons_of_mem x hmxs, hdm⟩]
        · rw [if_neg (fun hc => hmxs hc.1)]
          by_cases hmx : m = x
          · rw [hmx, hdx] at hdm
            cases hdm
          · rw [if_neg (fun hc => by
              rcases List.mem_cons.mp hc.1 with h | h
              · exact hmx h
              · exact hmxs h)]
      · rw [if_neg (fun hc => hdm hc.2), if_neg (fun hc => hdm hc.2)]
    · rw [if_neg hdx, ih, lookupEntry_erase]
      by_cases hmx : m = x
      · have hdmf : dictHas desired m = false :=
          Bool.not_eq_true _ ▸ (hmx ▸ hdx)
        rw [if_pos (show m ∈ x :: xs ∧ dictHas desired m = false from
          ⟨hmx ▸ List.mem_cons_self x xs, hdmf⟩)]
        by_cases hmxs : m ∈ xs
        · rw [if_pos ⟨hmxs, hdmf⟩]
        · rw [if_neg (fun hc => hmxs hc.1), if_pos hmx]
      · rw [if_neg hmx]
        by_cases hcond : m ∈ xs ∧ dictHas desired m = false
        · rw [if_pos hcond,
            if_pos ⟨List.mem_cons_of_mem x hcond.1, hcond.2⟩]
        · rw [if_neg hcond, if_neg (fun hc =>
            hcond ⟨(List.mem_cons.mp hc.1).resolve_left hmx, hc.2⟩)]

theorem lookup_addFoldFiles (w : World) (desired : List (String × String))
    (d : SrcDir) (m : String)
    (hnd : (desired.map (fun p => p.1)).Nodup) :
    lookupEntry (desired.foldl
        (fun acc p => if (lookupEntry acc p.1).isSome then acc
          else createSymlink w acc p.2 p.1) d) m =
      match lookupEntry d m with
      | some e => some e
      | none =>
        match dictFind desired m with
        | some src =>
          if w src = PathKind.missing then none else some (Entry.link src)
        | none => none := by
  induction desired generalizing d with
  | nil =>
    cases h : lookupEntry d m <;> simp [dictFind, h]
  | cons q rest ih =>
    rw [List.map_cons] at hnd
    rcases hnd with - | ⟨hq, hrest⟩
    rw [List.foldl_cons, ih _ hrest]
    have hacc : ∀ x, lookupEntry
        (if (lookupEntry d q.1).isSome then d
         else createSymlink w d q.2 q.1) x =
        if x = q.1 ∧ lookupEntry d q.1 = none ∧
            ¬ (w q.2 = PathKind.missing) then some (Entry.link q.2)
        else lookupEntry d x := by
      intro x
      by_cases hp : (lookupEntry d q.1).isSome
      · rw [if_pos hp, if_neg (fun hc => by rw [hc.2.1] at hp; cases hp)]
      · rw [if_neg hp]
        exact lookupEntry_createSymlink w d q.2 q.1 x
    rw [hacc m]
    rcases q with ⟨k, v⟩
    rw [dictFind_cons]
    by_cases hmk : m = k
    · subst hmk
      have hfr : dictFind rest m = none :=
        dictFind_eq_none_of_not_mem (fun hm => hq m hm rfl)
      rw [hfr, if_pos rfl]
      by_cases hl : lookupEntry d m = none
      · rw [hl]
        by_cases hmiss : w v = PathKind.missing
        · rw [if_neg (fun hc => hc.2.2 hmiss)]
          dsimp only
          rw [if_pos hmiss]
        · rw [if_pos ⟨rfl, rfl, hmiss⟩]
          dsimp only
          rw [if_neg hmiss]
      · rcases Option.ne_none_iff_exists.mp hl with ⟨e, he⟩
        rw [← he]
        rw [if_neg (fun hc => Option.noConfusion hc.2.1)]
    · rw [if_neg (fun hc => hmk hc.1), if_neg (fun hc => hmk hc.symm)]

theorem lookup_addFoldFolders (w : World) (desired : List (String × String))
    (current : List String) (d : SrcDir) (m : String)
    (hnd : (desired.map (fun p => p.1)).Nodup) :
    lookupEntry (desired.foldl
        (fun acc p => if current.contains p.1 then acc
          else createFolderSymlink w acc p.2 p.1) d) m =
      match lookupEntry d m with
      | some e => some e
      | none =>
        if current.contains m then none
        else
          match dictFind desired m with
          | some src =>
            if w src = PathKind.dir then some (Entry.link src) else none
          | none => none := by
  induction desired generalizing d with
  | nil =>
    cases h : lookupEntry d m with
    | some e => simp [h]
    | none =>
      by_cases hc : current.contains m <;> simp [dictFind, h, hc]
  | cons q rest ih =>
    rw [List.map_cons] at hnd
    rcases hnd with - | ⟨hq, hrest⟩
    rw [List.foldl_cons, ih _ hrest]
    have hacc : ∀ x, lookupEntry
        (if current.contains q.1 then d
         else createFolderSymlink w d q.2 q.1) x =
        if x = q.1 ∧ current.contains q.1 = false ∧
            lookupEntry d q.1 = none ∧ w q.2 = PathKind.dir then
          some (Entry.link q.2)
        else lookupEntry d x := by
      intro x
      by_cases hcc : current.contains q.1
      · rw [if_pos hcc, if_neg (fun hc => by rw [hc.2.1] at hcc; cases hcc)]
      · rw [if_neg hcc, lookupEntry_createFolderSymlink]
        have hcc2 : current.contains q.1 = false := Bool.not_eq_true _ ▸ hcc
        by_cases hcond : x = q.1 ∧ lookupEntry d q.1 = none ∧
            w q.2 = PathKind.dir
        · rw [if_pos hcond, if_pos ⟨hcond.1, hcc2, hcond.2.1, hcond.2.2⟩]
        · rw [if_neg hcond,
            if_neg (fun hc => hcond ⟨hc.1, hc.2.2.1, hc.2.2.2⟩)]
    rw [hacc m]
    rcases q with ⟨k, v⟩
    rw [dictFind_cons]
    by_cases hmk : m = k
    · subst hmk
      have hfr : dictFind rest m = none :=
        dictFind_eq_none_of_not_mem (fun hm => hq m hm rfl)
      rw [hfr, if_pos rfl]
      by_cases hl : lookupEntry d m = none
      · rw [hl]
        by_cases hcc : current.contains m
        · rw [if_neg (fun hc => by rw [hc.2.1] at hcc; cases hcc)]
          dsimp only
          have hm : m ∈ current := by simpa using hcc
          simp [hm]
        · have hcc2 : current.contains m = false := Bool.not_eq_true _ ▸ hcc
          have hm : m ∉ current := by simpa using hcc
          by_cases hdir : w v = PathKind.dir
          · rw [if_pos ⟨rfl, hcc2, rfl, hdir⟩]
            dsimp only
            simp [hm, hdir]
          · rw [if_neg (fun hc => hdir hc.2.2.2)]
            dsimp only
            simp [hm, hdir]
      · rcases Option.ne_none_iff_exists.mp hl with ⟨e, he⟩
        rw [← he]
        rw [if_neg (fun hc => Option.noConfusion hc.2.2.1)]
    · rw [if_neg (fun hc => hmk hc.1)]
      rw [if_neg (show ¬ k = m from fun hc => hmk hc.symm)]


theorem dictFind_eq_none_of_dictHas_false {m : List (String × String)}
    {k : String} (h : dictHas m k = false) : dictFind m k = none :=
  dictFind_eq_none_of_not_mem
    (fun hm => by rw [dictHas_iff.mpr hm] at h; cases h)

theorem dictHas_find {m : List (String × String)} {k : String}
    (h : dictHas m k = true) :
    ∃ src, dictFind m k = some src ∧ (k, src) ∈ m := by
  cases hf : m.find? (fun p => p.1 = k) with
  | none =>
    rcases List.mem_map.mp (dictHas_iff.mp h) with ⟨p, hp, hpk⟩
    have := List.find?_eq_none.mp hf p hp
    simp [hpk] at this
  | some p =>
    have hp1 : p.1 = k := by
      have := List.find?_some hf
      simpa using this
    refine ⟨p.2, ?_, ?_⟩
    · unfold dictFind
      rw [hf]
      rfl
    · have hmem := List.mem_of_find?_eq_some hf
      rw [← hp1]
      exact hmem

theorem fileLike_not_folderLike {w : World} {e : Entry}
    (h : fileLike w e = true) : folderLike w e = false := by
  cases e with
  | realFile => rfl
  | realDir hs => simp [fileLike, entryIsFile, entryIsLink] at h
  | link t =>
    unfold folderLike entryIsLink entryIsDir
    unfold fileLike entryIsFile entryIsLink entryIsDir at h
    dsimp only at h ⊢
    cases hwt : w t <;> rw [hwt] at h <;> simp at h ⊢

theorem folderLike_not_fileLike {w : World} {e : Entry}
    (h : folderLike w e = true) : fileLike w e = false := by
  cases hf : fileLike w e
  · rfl
  · rw [fileLike_not_folderLike hf] at h
    cases h

theorem nodupKeys_createSymlink {w : World} {d : SrcDir} (src n : String)
    (h : NodupKeys d) : NodupKeys (createSymlink w d src n) := by
  unfold createSymlink
  by_cases hp : (lookupEntry d n).isSome
  · rw [if_pos hp]
    exact h
  · rw [if_neg hp]
    by_cases hm : w src = PathKind.missing
    · rw [if_pos hm]
      exact h
    · rw [if_neg hm]
      exact nodupKeys_append _ h (Option.not_isSome_iff_eq_none.mp hp)

theorem nodupKeys_createFolderSymlink {w : World} {d : SrcDir}
    (src n : String) (h : NodupKeys d) :
    NodupKeys (createFolderSymlink w d src n) := by
  unfold createFolderSymlink
  by_cases hp : (lookupEntry d n).isSome
  · rw [if_pos hp]
    exact h
  · rw [if_neg hp]
    by_cases hm : ¬ (w src = PathKind.dir)
    · rw [if_pos hm]
      exact h
    · rw [if_neg hm]
      exact nodupKeys_append _ h (Option.not_isSome_iff_eq_none.mp hp)

theorem nodupKeys_rmFold (desired : List (String × String))
    (current : List String) {d : SrcDir} (h : NodupKeys d) :
    NodupKeys (current.foldl
      (fun acc n => if dictHas desired n then acc else eraseEntry acc n) d) := by
  induction current generalizing d with
  | nil => exact h
  | cons x xs ih =>
    rw [List.foldl_cons]
    by_cases hdx : dictHas desired x
    · rw [if_pos hdx]
      exact ih h
    · rw [if_neg hdx]
      exact ih (nodupKeys_erase x h)

theorem nodupKeys_addFoldFiles (w : World)
    (desired : List (String × String)) {d : SrcDir} (h : NodupKeys d) :
    NodupKeys (desired.foldl
      (fun acc p => if (lookupEntry acc p.1).isSome then acc
        else createSymlink w acc p.2 p.1) d) := by
  induction desired generalizing d with
  | nil => exact h
  | cons q rest ih =>
    rw [List.foldl_cons]
    by_cases hp : (lookupEntry d q.1).isSome
    · rw [if_pos hp]
      exact ih h
    · rw [if_neg hp]
      exact ih (nodupKeys_createSymlink q.2 q.1 h)

theorem nodupKeys_addFoldFolders (w : World)
    (desired : List (String × String)) (current : List String) {d : SrcDir}
    (h : NodupKeys d) :
    NodupKeys (desired.foldl
      (fun acc p => if current.contains p.1 then acc
        else createFolderSymlink w acc p.2 p.1) d) := by
  induction desired generalizing d with
  | nil => exact h
  | cons q rest ih =>
    rw [List.foldl_cons]
    by_cases hp : current.contains q.1
    · rw [if_pos hp]
      exact ih h
    · rw [if_neg hp]
      exact ih (nodupKeys_createFolderSymlink q.2 q.1 h)

theorem nodupKeys_updateSourceFiles (w : World) (expand : String → String)
    (cfg : Config) {d : SrcDir} (h : NodupKeys d) :
    NodupKeys (updateSourceFiles w expand cfg d) := by
  unfold updateSourceFiles
  cases hg : cfg.get? "compiler" "source_files" with
  | none => exact h
  | some raw =>
    dsimp only
    by_cases hb : strip raw = ""
    · rw [if_pos hb]
      exact h
    · rw [if_neg hb]
      exact nodupKeys_addFoldFiles w _ (nodupKeys_rmFold _ _ h)

theorem nodupKeys_updateSourceFolders (w : World) (expand : String → String)
    (cfg : Config) {d : SrcDir} (h : NodupKeys d) :
    NodupKeys (updateSourceFolders w expand cfg d) := by
  unfold updateSourceFolders
  cases hg : cfg.get? "compiler" "source_folders" with
  | none => exact h
  | some raw =>
    dsimp only
    by_cases hb : strip raw = ""
    · rw [if_pos hb]
      exact h
    · rw [if_neg hb]
      exact nodupKeys_addFoldFolders w _ _ (nodupKeys_rmFold _ _ h)

theorem nodupKeys_reconcileSources (w : World) (expand : String → String)
    (cfg : Config) {d : SrcDir} (h : NodupKeys d) :
    NodupKeys (reconcileSources w expand cfg d) :=
  nodupKeys_updateSourceFolders w expand cfg
    (nodupKeys_updateSourceFiles w expand cfg h)


theorem desiredPairs_eq_of_active {cfg : Config} {sec opt raw : String}
    (expand : String → String) (hg : cfg.get? sec opt = some raw)
    (hb : ¬ (strip raw = "")) :
    desiredPairs expand cfg sec opt =
      dictOfPairs (((parseMultilinePaths (strip raw)).map expand).map
        (fun s => (basename s, s))) := by
  unfold desiredPairs
  rw [hg]
  dsimp only
  rw [if_neg hb]

theorem desiredPairs_eq_nil_of_none {cfg : Config} {sec opt : String}
    (expand : String → String) (hg : cfg.get? sec opt = none) :
    desiredPairs expand cfg sec opt = [] := by
  unfold desiredPairs
  rw [hg]

theorem desiredPairs_eq_nil_of_blank {cfg : Config} {sec opt raw : String}
    (expand : String → String) (hg : cfg.get? sec opt = some raw)
    (hb : strip raw = "") :
    desiredPairs expand cfg sec opt = [] := by
  unfold desiredPairs
  rw [hg]
  dsimp only
  rw [if_pos hb]

theorem updateSourceFiles_eq_of_none {w : World} {expand : String → String}
    {cfg : Config} {d : SrcDir}
    (hg : cfg.get? "compiler" "source_files" = none) :
    updateSourceFiles w expand cfg d = d := by
  unfold updateSourceFiles
  rw [hg]

theorem updateSourceFiles_eq_of_blank {w : World} {expand : String → String}
    {cfg : Config} {d : SrcDir} {raw : String}
    (hg : cfg.get? "compiler" "source_files" = some raw)
    (hb : strip raw = "") :
    updateSourceFiles w expand cfg d = d := by
  unfold updateSourceFiles
  rw [hg]
  dsimp only
  rw [if_pos hb]

theorem updateSourceFolders_eq_of_none {w : World} {expand : String → String}
    {cfg : Config} {d : SrcDir}
    (hg : cfg.get? "compiler" "source_folders" = none) :
    updateSourceFolders w expand cfg d = d := by
  unfold updateSourceFolders
  rw [hg]

theorem updateSourceFolders_eq_of_blank {w : World}
    {expand : String → String} {cfg : Config} {d : SrcDir} {raw : String}
    (hg : cfg.get? "compiler" "source_folders" = some raw)
    (hb : strip raw = "") :
    updateSourceFolders w expand cfg d = d := by
  unfold updateSourceFolders
  rw [hg]
  dsimp only
  rw [if_pos hb]

theorem lookup_updateSourceFiles_active (w : World)
    (expand : String → String) (cfg : Config) (d : SrcDir) (m raw : String)
    (hg : cfg.get? "compiler" "source_files" = some raw)
    (hb : ¬ (strip raw = "")) :
    lookupEntry (updateSourceFiles w expand cfg d) m =
      if m ∈ currentFileNames w d ∧
          dictHas (desiredPairs expand cfg "compiler" "source_files") m =
            false then none
      else
        match lookupEntry d m with
        | some e => some e
        | none =>
          match dictFind (desiredPairs expand cfg "compiler" "source_files")
              m with
          | some src =>
            if w src = PathKind.missing then none
            else some (Entry.link src)
          | none => none := by
  rw [desiredPairs_eq_of_active expand hg hb]
  unfold updateSourceFiles
  rw [hg]
  dsimp only
  rw [if_neg hb]
  rw [lookup_addFoldFiles w _ _ m (nodupKeys_dictOfPairs _)]
  rw [lookup_rmFold]
  by_cases hcond : m ∈ currentFileNames w d ∧
      dictHas (dictOfPairs (((parseMultilinePaths (strip raw)).map
        expand).map (fun s => (basename s, s)))) m = false
  · rw [if_pos hcond, if_pos hcond]
    dsimp only
    rw [dictFind_eq_none_of_dictHas_false hcond.2]
  · rw [if_neg hcond, if_neg hcond]

theorem lookup_updateSourceFolders_active (w : World)
    (expand : String → String) (cfg : Config) (d : SrcDir) (m raw : String)
    (hg : cfg.get? "compiler" "source_folders" = some raw)
    (hb : ¬ (strip raw = "")) :
    lookupEntry (updateSourceFolders w expand cfg d) m =
      if m ∈ currentFolderNames w d ∧
          dictHas (desiredPairs expand cfg "compiler" "source_folders") m =
            false then none
      else
        match lookupEntry d m with
        | some e => some e
        | none =>
          if (currentFolderNames w d).contains m then none
          else
            match dictFind
                (desiredPairs expand cfg "compiler" "source_folders") m with
            | some src =>
              if w src = PathKind.dir then some (Entry.link src) else none
            | none => none := by
  rw [desiredPairs_eq_of_active expand hg hb]
  unfold updateSourceFolders
  rw [hg]
  dsimp only
  rw [if_neg hb]
  rw [lookup_addFoldFolders w _ _ _ m (nodupKeys_dictOfPairs _)]
  rw [lookup_rmFold]
  by_cases hcond : m ∈ currentFolderNames w d ∧
      dictHas (dictOfPairs (((parseMultilinePaths (strip raw)).map
        expand).map (fun f => (basename f, f)))) m = false
  · rw [if_pos hcond, if_pos hcond]
    dsimp only
    have hc : (currentFolderNames w d).contains m = true := by
      simpa using hcond.1
    rw [if_pos hc]
  · rw [if_neg hcond, if_neg hcond]

theorem lookup_updateLinkerScript_active (w : World)
    (expand : String → String) (cfg : Config) (d : SrcDir) (raw : String)
    (hg : cfg.get? "linker" "linker_script" = some raw)
    (hb : ¬ (strip raw = ""))
    (hx : ¬ (w (expand (strip raw)) = PathKind.missing)) :
    lookupEntry (updateLinkerScript w expand cfg d) "lscript.ld" =
      some (Entry.link (expand (strip raw))) := by
  unfold updateLinkerScript
  rw [hg]
  dsimp only
  rw [if_neg hb]
  rw [lookupEntry_createSymlink]
  have hnone : lookupEntry
      (if (lookupEntry d "lscript.ld").isSome then
        eraseEntry d "lscript.ld" else d) "lscript.ld" = none := by
    by_cases hp : (lookupEntry d "lscript.ld").isSome
    · rw [if_pos hp, lookupEntry_erase, if_pos rfl]
    · rw [if_neg hp]
      exact Option.not_isSome_iff_eq_none.mp hp
  rw [if_pos ⟨rfl, hnone, hx⟩]


/-- Witness environment for C7: one configured source file, one configured
source folder (whose link already exists with an older target) and a
configured linker script. -/
def w7 : World := fun p =>
  if p = "/ls/l.ld" then PathKind.file
  else if p = "/s/a.c" then PathKind.file
  else if p = "/s/lib" then PathKind.dir
  else if p = "/old/lib" then PathKind.dir
  else PathKind.missing

/-- Application configuration for the C7 witness. -/
def cfg7 : Config :=
  ⟨[("compiler", [("source_files", "/s/a.c"),
      ("source_folders", "/s/lib")]),
    ("linker", [("linker_script", "/ls/l.ld")])]⟩

/-- Initial src directory for the C7 witness: the desired file exists as a
real file, the desired folder as a symlink to a different (older) target. -/
def d7 : SrcDir := [("a.c", Entry.realFile), ("lib", Entry.link "/old/lib")]

/-- C7: source reconciliation never retargets an existing entry — for a
name present in the src directory, `__update_source_files` (when the name
is a desired file basename) and `__update_source_folders` (when it is a
desired folder basename) keep the entry exactly as it was, even when the
configured source path differs — whereas `__update_linker_script` always
removes any `lscript.ld` entry and recreates it as a symlink to the
configured (expanded) script, provided the option is set, non-blank and
the script path exists. -/
theorem source_reconciliation_no_retarget (w : World)
    (expand : String → String) (cfg : Config) (d : SrcDir)
    (n raw : String) (e : Entry) (hne : lookupEntry d n = some e) :
    (dictHas (desiredPairs expand cfg "compiler" "source_files") n = true →
      lookupEntry (updateSourceFiles w expand cfg d) n = some e) ∧
    (dictHas (desiredPairs expand cfg "compiler" "source_folders") n = true →
      lookupEntry (updateSourceFolders w expand cfg d) n = some e) ∧
    (cfg.get? "linker" "linker_script" = some raw → ¬ (strip raw = "") →
      ¬ (w (expand (strip raw)) = PathKind.missing) →
      lookupEntry (updateLinkerScript w expand cfg d) "lscript.ld" =
        some (Entry.link (expand (strip raw)))) := by
  refine ⟨?_, ?_, ?_⟩
  · intro hd
    cases hg : cfg.get? "compiler" "source_files" with
    | none =>
      rw [desiredPairs_eq_nil_of_none expand hg] at hd
      exact absurd hd (by simp [dictHas])
    | some raw' =>
      by_cases hb : strip raw' = ""
      · rw [desiredPairs_eq_nil_of_blank expand hg hb] at hd
        exact absurd hd (by simp [dictHas])
      · rw [lookup_updateSourceFiles_active w expand cfg d n raw' hg hb]
        rw [if_neg (fun hc => by rw [hd] at hc; exact Bool.noConfusion hc.2)]
        rw [hne]
  · intro hd
    cases hg : cfg.get? "compiler" "source_folders" with
    | none =>
      rw [desiredPairs_eq_nil_of_none expand hg] at hd
      exact absurd hd (by simp [dictHas])
    | some raw' =>
      by_cases hb : strip raw' = ""
      · rw [desiredPairs_eq_nil_of_blank expand hg hb] at hd
        exact absurd hd (by simp [dictHas])
      · rw [lookup_updateSourceFolders_active w expand cfg d n raw' hg hb]
        rw [if_neg (fun hc => by rw [hd] at hc; exact Bool.noConfusion hc.2)]
        rw [hne]
  · intro hg hb hx
    exact lookup_updateLinkerScript_active w expand cfg d raw hg hb hx

/-- Witness for C7: the pre-existing real file `a.c` and the folder link
`lib → /old/lib` survive their phases unchanged (the config wants
`lib → /s/lib`), and the linker phase ends with
`lscript.ld → /ls/l.ld`. -/
theorem source_reconciliation_no_retarget_witness :
    lookupEntry (updateSourceFiles w7 id cfg7 d7) "a.c" =
        some Entry.realFile ∧
      lookupEntry (updateSourceFolders w7 id cfg7 d7) "lib" =
        some (Entry.link "/old/lib") ∧
      lookupEntry (updateLinkerScript w7 id cfg7 d7) "lscript.ld" =
        some (Entry.link "/ls/l.ld") := by
  have ha := source_reconciliation_no_retarget w7 id cfg7 d7 "a.c"
    "/ls/l.ld" Entry.realFile (by decide)
  have hl := source_reconciliation_no_retarget w7 id cfg7 d7 "lib"
    "/ls/l.ld" (Entry.link "/old/lib") (by decide)
  refine ⟨ha.1 (by decide), hl.2.1 (by decide), ?_⟩
  have h3 := ha.2.2 (by decide) (by decide) (by decide)
  rw [show (id (strip "/ls/l.ld")) = "/ls/l.ld" from by decide] at h3
  exact h3


/-- C2 (amended): with both source options configured and non-blank, when
every desired file path is an existing source-extension file, every
desired folder path an existing non-ignored directory, no basename is
desired both as file and as folder, and every pre-existing entry at a
desired basename is of the matching kind (file-like at file basenames,
folder-like at folder basenames), the reconciliation of
`ApplicationUpdater.update` is an exact two-set diff: afterwards the
source entry names are exactly the desired basenames. -/
theorem reconcileSources_two_set_diff (w : World) (expand : String → String)
    (cfg : Config) (d : SrcDir) (fraw draw : String)
    (hnd : NodupKeys d)
    (hgf : cfg.get? "compiler" "source_files" = some fraw)
    (hbf : ¬ (strip fraw = ""))
    (hgd : cfg.get? "compiler" "source_folders" = some draw)
    (hbd : ¬ (strip draw = ""))
    (hfile : ∀ p ∈ desiredPairs expand cfg "compiler" "source_files",
      w p.2 = PathKind.file ∧ hasSourceExt p.1 = true)
    (hfold : ∀ p ∈ desiredPairs expand cfg "compiler" "source_folders",
      w p.2 = PathKind.dir ∧ ignoreDirs.contains p.1 = false)
    (hdisj : ∀ m, ¬ (dictHas (desiredPairs expand cfg "compiler"
        "source_files") m = true ∧
      dictHas (desiredPairs expand cfg "compiler" "source_folders") m =
        true))
    (hoccf : ∀ m e, lookupEntry d m = some e →
      dictHas (desiredPairs expand cfg "compiler" "source_files") m =
        true →
      fileLike w e = true)
    (hoccd : ∀ m e, lookupEntry d m = some e →
      dictHas (desiredPairs expand cfg "compiler" "source_folders") m =
        true →
      folderLike w e = true)
    (n : String) :
    n ∈ sourceEntryNames w (reconcileSources w expand cfg d) ↔
      (dictHas (desiredPairs expand cfg "compiler" "source_files") n =
          true ∨
        dictHas (desiredPairs expand cfg "compiler" "source_folders") n =
          true) := by
  have hnd1 : NodupKeys (updateSourceFiles w expand cfg d) :=
    nodupKeys_updateSourceFiles w expand cfg hnd
  have hnd2 : NodupKeys (updateSourceFolders w expand cfg
      (updateSourceFiles w expand cfg d)) :=
    nodupKeys_updateSourceFolders w expand cfg hnd1
  have F1 := fun m => lookup_updateSourceFiles_active w expand cfg d m fraw
    hgf hbf
  have F2 := fun m => lookup_updateSourceFolders_active w expand cfg
    (updateSourceFiles w expand cfg d) m draw hgd hbd
  have hrec : reconcileSources w expand cfg d =
      updateSourceFolders w expand cfg (updateSourceFiles w expand cfg d) :=
    rfl
  rw [hrec]
  unfold sourceEntryNames
  constructor
  · intro hmem
    rcases List.mem_append.mp hmem with hmf | hmd
    · rcases (mem_currentFileNames hnd2).mp hmf with ⟨e, hle, hfl, hex⟩
      by_contra hcon
      rw [not_or] at hcon
      rcases hcon with ⟨hA, hB⟩
      have hDf : dictHas (desiredPairs expand cfg "compiler"
          "source_files") n = false := Bool.not_eq_true _ ▸ hA
      have hDd : dictHas (desiredPairs expand cfg "compiler"
          "source_folders") n = false := Bool.not_eq_true _ ▸ hB
      rw [F2 n] at hle
      by_cases hC : n ∈ currentFolderNames w
            (updateSourceFiles w expand cfg d) ∧
          dictHas (desiredPairs expand cfg "compiler" "source_folders") n =
            false
      · rw [if_pos hC] at hle
        cases hle
      · rw [if_neg hC] at hle
        cases hld1 : lookupEntry (updateSourceFiles w expand cfg d) n with
        | some e1 =>
          rw [hld1] at hle
          dsimp only at hle
          have he1 : e1 = e := Option.some.inj hle
          subst he1
          rw [F1 n] at hld1
          by_cases hC1 : n ∈ currentFileNames w d ∧
              dictHas (desiredPairs expand cfg "compiler" "source_files")
                n = false
          · rw [if_pos hC1] at hld1
            cases hld1
          · rw [if_neg hC1] at hld1
            cases hld : lookupEntry d n with
            | some e0 =>
              rw [hld] at hld1
              dsimp only at hld1
              have he0 : e0 = e1 := Option.some.inj hld1
              subst he0
              have hnf : n ∈ currentFileNames w d :=
                (mem_currentFileNames hnd).mpr ⟨e0, hld, hfl, hex⟩
              exact hC1 ⟨hnf, hDf⟩
            | none =>
              rw [hld] at hld1
              dsimp only at hld1
              rw [dictFind_eq_none_of_dictHas_false hDf] at hld1
              cases hld1
        | none =>
          rw [hld1] at hle
          dsimp only at hle
          rw [dictFind_eq_none_of_dictHas_false hDd] at hle
          by_cases hcc : (currentFolderNames w
              (updateSourceFiles w expand cfg d)).contains n
          · rw [if_pos hcc] at hle
            cases hle
          · rw [if_neg hcc] at hle
            dsimp only at hle
            cases hle
    · rcases (mem_currentFolderNames hnd2).mp hmd with ⟨e, hle, hig, hfl⟩
      by_contra hcon
      rw [not_or] at hcon
      rcases hcon with ⟨hA, hB⟩
      have hDd : dictHas (desiredPairs expand cfg "compiler"
          "source_folders") n = false := Bool.not_eq_true _ ▸ hB
      rw [F2 n] at hle
      by_cases hC : n ∈ currentFolderNames w
            (updateSourceFiles w expand cfg d) ∧
          dictHas (desiredPairs expand cfg "compiler" "source_folders") n =
            false
      · rw [if_pos hC] at hle
        cases hle
      · rw [if_neg hC] at hle
        have hnmem : ¬ (n ∈ currentFolderNames w
            (updateSourceFiles w expand cfg d)) := fun hm => hC ⟨hm, hDd⟩
        cases hld1 : lookupEntry (updateSourceFiles w expand cfg d) n with
        | some e1 =>
          rw [hld1] at hle
          dsimp only at hle
          have he1 : e1 = e := Option.some.inj hle
          subst he1
          exact hnmem ((mem_currentFolderNames hnd1).mpr ⟨e1, hld1, hig,
            hfl⟩)
        | none =>
          rw [hld1] at hle
          dsimp only at hle
          rw [dictFind_eq_none_of_dictHas_false hDd] at hle
          by_cases hcc : (currentFolderNames w
              (updateSourceFiles w expand cfg d)).contains n
          · rw [if_pos hcc] at hle
            cases hle
          · rw [if_neg hcc] at hle
            dsimp only at hle
            cases hle
  · intro hdes
    rcases hdes with hDf | hDd
    · have hDd : dictHas (desiredPairs expand cfg "compiler"
          "source_folders") n = false := by
        cases hb2 : dictHas (desiredPairs expand cfg "compiler"
            "source_folders") n
        · rfl
        · exact absurd ⟨hDf, hb2⟩ (hdisj n)
      rcases dictHas_find hDf with ⟨src, hfind, hmemD⟩
      rcases hfile (n, src) hmemD with ⟨hwsrc, hext⟩
      have hstep : ∃ e1, lookupEntry (updateSourceFiles w expand cfg d) n =
          some e1 ∧ fileLike w e1 = true := by
        rw [F1 n]
        rw [if_neg (show ¬ (n ∈ currentFileNames w d ∧
            dictHas (desiredPairs expand cfg "compiler" "source_files") n =
              false) from
          fun hc => by rw [hDf] at hc; exact Bool.noConfusion hc.2)]
        cases hld : lookupEntry d n with
        | some e0 =>
          exact ⟨e0, rfl, hoccf n e0 hld hDf⟩
        | none =>
          rw [hfind]
          refine ⟨Entry.link src, ?_, ?_⟩
          · dsimp only
            rw [if_neg (show ¬ (w src = PathKind.missing) from by
              rw [hwsrc]; exact fun hc => PathKind.noConfusion hc)]
          · simp [fileLike, entryIsFile, hwsrc]
      rcases hstep with ⟨e1, hld1, hfl1⟩
      have hnmem : ¬ (n ∈ currentFolderNames w
          (updateSourceFiles w expand cfg d)) := by
        intro hm
        rcases (mem_currentFolderNames hnd1).mp hm with ⟨e2, hle2, -, hfl2⟩
        rw [hld1] at hle2
        have he2 : e1 = e2 := Option.some.inj hle2
        rw [← he2] at hfl2
        rw [fileLike_not_folderLike hfl1] at hfl2
        cases hfl2
      have hle2 : lookupEntry (updateSourceFolders w expand cfg
          (updateSourceFiles w expand cfg d)) n = some e1 := by
        rw [F2 n]
        rw [if_neg (fun hc => hnmem hc.1)]
        rw [hld1]
      refine List.mem_append.mpr (Or.inl ?_)
      exact (mem_currentFileNames hnd2).mpr ⟨e1, hle2, hfl1, hext⟩
    · have hDf2 : dictHas (desiredPairs expand cfg "compiler"
          "source_files") n = false := by
        cases hb2 : dictHas (desiredPairs expand cfg "compiler"
            "source_files") n
        · rfl
        · exact absurd ⟨hb2, hDd⟩ (hdisj n)
      rcases dictHas_find hDd with ⟨src, hfind, hmemD⟩
      rcases hfold (n, src) hmemD with ⟨hwsrc, hig⟩
      have hnf : ¬ (n ∈ currentFileNames w d) := by
        intro hm
        rcases (mem_currentFileNames hnd).mp hm with ⟨e0, hld, hfl0, -⟩
        have hfo := hoccd n e0 hld hDd
        rw [fileLike_not_folderLike hfl0] at hfo
        cases hfo
      cases hld : lookupEntry d n with
      | some e0 =>
        have hfo : folderLike w e0 = true := hoccd n e0 hld hDd
        have hld1 : lookupEntry (updateSourceFiles w expand cfg d) n =
            some e0 := by
          rw [F1 n]
          rw [if_neg (fun hc => hnf hc.1)]
          rw [hld]
        have hle2 : lookupEntry (updateSourceFolders w expand cfg
            (updateSourceFiles w expand cfg d)) n = some e0 := by
          rw [F2 n]
          rw [if_neg (show ¬ (n ∈ currentFolderNames w
              (updateSourceFiles w expand cfg d) ∧
              dictHas (desiredPairs expand cfg "compiler" "source_folders")
                n = false) from
            fun hc => by rw [hDd] at hc; exact Bool.noConfusion hc.2)]
          rw [hld1]
        refine List.mem_append.mpr (Or.inr ?_)
        exact (mem_currentFolderNames hnd2).mpr ⟨e0, hle2, hig, hfo⟩
      | none =>
        have hld1 : lookupEntry (updateSourceFiles w expand cfg d) n =
            none := by
          rw [F1 n]
          rw [if_neg (fun hc => hnf hc.1)]
          rw [hld]
          dsimp only
          rw [dictFind_eq_none_of_dictHas_false hDf2]
        have hcont : (currentFolderNames w
            (updateSourceFiles w expand cfg d)).contains n = false := by
          have hnm : ¬ (n ∈ currentFolderNames w
              (updateSourceFiles w expand cfg d)) := by
            intro hm
            rcases (mem_currentFolderNames hnd1).mp hm with ⟨e2, hle2, -, -⟩
            rw [hld1] at hle2
            cases hle2
          cases hc : (currentFolderNames w
              (updateSourceFiles w expand cfg d)).contains n
          · rfl
          · exact absurd (by simpa using hc) hnm
        have hle2 : lookupEntry (updateSourceFolders w expand cfg
            (updateSourceFiles w expand cfg d)) n =
            some (Entry.link src) := by
          rw [F2 n]
          rw [if_neg (show ¬ (n ∈ currentFolderNames w
              (updateSourceFiles w expand cfg d) ∧
              dictHas (desiredPairs expand cfg "compiler" "source_folders")
                n = false) from
            fun hc => by rw [hDd] at hc; exact Bool.noConfusion hc.2)]
          rw [hld1]
          dsimp only
          rw [if_neg (show ¬ ((currentFolderNames w
              (updateSourceFiles w expand cfg d)).contains n = true) from
            fun hc => by rw [hcont] at hc; exact Bool.noConfusion hc)]
          rw [hfind]
          dsimp only
          rw [if_pos hwsrc]
        refine List.mem_append.mpr (Or.inr ?_)
        have hfl : folderLike w (Entry.link src) = true := by
          simp [folderLike, entryIsLink, entryIsDir, hwsrc]
        exact (mem_currentFolderNames hnd2).mpr ⟨Entry.link src, hle2, hig,
          hfl⟩


/-- Counterexample world for C2: both configured source paths exist, the
old target of the pre-existing link exists as a directory. -/
def wC2 : World := fun p =>
  if p = "/s/main.c" then PathKind.file
  else if p = "/s/lib" then PathKind.dir
  else if p = "/x" then PathKind.dir
  else PathKind.missing

/-- Counterexample configuration for C2: `main.c` is a desired file
basename, `lib` a desired folder basename. -/
def cfgC2 : Config :=
  ⟨[("compiler", [("source_files", "/s/main.c"),
      ("source_folders", "/s/lib")])]⟩

/-- Counterexample src directory for C2: the desired file basename
`main.c` is occupied by a symlink whose target is a directory. -/
def dC2 : SrcDir := [("main.c", Entry.link "/x")]

/-- Counterexample to C2 as stated: every desired source path exists
(`/s/main.c` is a file, `/s/lib` a directory) and all operations succeed,
`main.c` is among the desired basenames, yet after the reconciliation of
`ApplicationUpdater.update` the entry `main.c` is gone: the file phase
skips creating it (the name is occupied, `os.path.exists` is true) and
the folder phase removes it as a stale folder symlink, so the final set
of source entry names is `{lib}`, not the claimed `{main.c, lib}`. -/
theorem reconcile_two_set_diff_counterexample :
    ((desiredPairs id cfgC2 "compiler" "source_files").map
        (fun p => p.1) = ["main.c"] ∧
      (desiredPairs id cfgC2 "compiler" "source_folders").map
        (fun p => p.1) = ["lib"] ∧
      wC2 "/s/main.c" = PathKind.file ∧ wC2 "/s/lib" = PathKind.dir ∧
      NodupKeys dC2) ∧
    reconcileSources wC2 id cfgC2 dC2 = [("lib", Entry.link "/s/lib")] ∧
    ¬ ("main.c" ∈ sourceEntryNames wC2
      (reconcileSources wC2 id cfgC2 dC2)) := by
  unfold NodupKeys
  decide

/-- Witness world for the amended C2 theorem. -/
def wW2 : World := fun p =>
  if p = "/s/a.c" then PathKind.file
  else if p = "/s/lib" then PathKind.dir
  else if p = "/old/b" then PathKind.file
  else PathKind.missing

/-- Witness configuration for the amended C2 theorem. -/
def cfgW2 : Config :=
  ⟨[("compiler", [("source_files", "/s/a.c"),
      ("source_folders", "/s/lib")])]⟩

/-- Witness src directory for the amended C2 theorem: one stale source
file link to be removed. -/
def dW2 : SrcDir := [("b.c", Entry.link "/old/b")]

/-- Witness for the amended C2 theorem: on a directory holding only a
stale `b.c` link, with `a.c` and `lib` desired, the reconciliation ends
with exactly the names `a.c` and `lib` classified as sources. -/
theorem reconcileSources_two_set_diff_witness :
    ("a.c" ∈ sourceEntryNames wW2 (reconcileSources wW2 id cfgW2 dW2) ∧
      "lib" ∈ sourceEntryNames wW2 (reconcileSources wW2 id cfgW2 dW2)) ∧
    ¬ ("b.c" ∈ sourceEntryNames wW2 (reconcileSources wW2 id cfgW2 dW2)) := by
  have e1 : desiredPairs id cfgW2 "compiler" "source_files" =
      [("a.c", "/s/a.c")] := by decide
  have e2 : desiredPairs id cfgW2 "compiler" "source_folders" =
      [("lib", "/s/lib")] := by decide
  have h := reconcileSources_two_set_diff wW2 id cfgW2 dW2 "/s/a.c"
    "/s/lib" (by unfold NodupKeys; decide) (by decide) (by decide)
    (by decide) (by decide) (by decide) (by decide)
    (fun m hc => by
      have h1 := hc.1
      have h2 := hc.2
      rw [e1] at h1
      rw [e2] at h2
      simp [dictHas] at h1 h2
      rw [← h1] at h2
      exact absurd h2 (by decide))
    (fun m e hle hdh => by
      have hm := lookupEntry_mem hle
      simp [dW2] at hm
      rw [hm.1] at hdh
      rw [e1] at hdh
      exact absurd hdh (by decide))
    (fun m e hle hdh => by
      have hm := lookupEntry_mem hle
      simp [dW2] at hm
      rw [hm.1] at hdh
      rw [e2] at hdh
      exact absurd hdh (by decide))
  refine ⟨⟨(h "a.c").mpr (Or.inl (by decide)),
    (h "lib").mpr (Or.inr (by decide))⟩, fun hm => ?_⟩
  rcases (h "b.c").mp hm with hx | hx
  · rw [e1] at hx
    exact absurd hx (by decide)
  · rw [e2] at hx
    exact absurd hx (by decide)

end Vitis
